import Mathlib

/-!
Verification of the extraction core of the hsi-mcp-server repository.

The Python source (src/hsi_server/scraper_index.py, scraper.py,
scraper_quote.py, gemini_client.py) is shallowly embedded: each pure
parsing/extraction routine becomes an executable Lean function over
`List Char` / `String`, Python `float` values are modelled by `PyNum`
(a rational together with the non-finite values `float` can produce),
and `None` becomes `Option`.
-/

namespace HSI

/-- Model of a Python float as produced by `float(str)`: a finite rational
or one of the non-finite values (`inf`, `-inf`, `nan`). -/
inductive PyNum where
  | fin (q : ℚ)
  | inf
  | ninf
  | nan
deriving DecidableEq, Repr

/-- Whether a `PyNum` is a finite number. -/
def PyNum.isFinite : PyNum → Bool
  | .fin _ => true
  | _ => false

/-- Python unary minus on floats. -/
def PyNum.neg : PyNum → PyNum
  | .fin q => .fin (-q)
  | .inf => .ninf
  | .ninf => .inf
  | .nan => .nan

/-- Python `abs` on floats. -/
def PyNum.abs : PyNum → PyNum
  | .fin q => .fin |q|
  | .inf => .inf
  | .ninf => .inf
  | .nan => .nan

/-- Multiplication of a Python float by a positive rational constant
(used for the turnover unit multipliers 1e3/1e6/1e9). -/
def PyNum.mulPos : PyNum → ℚ → PyNum
  | .fin q, m => .fin (q * m)
  | .inf, _ => .inf
  | .ninf, _ => .ninf
  | .nan, _ => .nan

/-- Python truthiness of an optional float (`if value:`):
`None` and `0.0` are falsy, everything else (including `nan`) is truthy. -/
def truthy : Option PyNum → Bool
  | none => false
  | some (.fin q) => decide (q ≠ 0)
  | some _ => true

/-- Carriage return. -/
def CR : Char := Char.ofNat 13
/-- Line feed. -/
def LF : Char := Char.ofNat 10
/-- Horizontal tab. -/
def TAB : Char := Char.ofNat 9

/-- The class of characters matched by Python `\s` (str patterns) and
stripped by `str.strip()`: both are backed by `Py_UNICODE_ISSPACE`. -/
def pyspace (c : Char) : Bool :=
  let n := c.toNat
  n == 32 || n == 9 || n == 10 || n == 13 || n == 11 || n == 12 ||
  (decide (28 ≤ n) && decide (n ≤ 31)) || n == 0x85 || n == 0xa0 ||
  n == 0x1680 || (decide (0x2000 ≤ n) && decide (n ≤ 0x200a)) ||
  n == 0x2028 || n == 0x2029 || n == 0x202f || n == 0x205f || n == 0x3000

/-- The characters removed by the second substitution in `_clean_text`
(`re.sub(r"[\r\n\t]", " ", text)`). -/
def crlftab (c : Char) : Bool := c == CR || c == LF || c == TAB

/-- One pass of `re.sub(r"\s+", " ", text)`: collapse every maximal run of
whitespace to a single space.  The flag records whether we are inside a
whitespace run whose replacement space has already been emitted. -/
def collapse : Bool → List Char → List Char
  | _, [] => []
  | b, c :: rest =>
    if pyspace c then
      if b then collapse true rest else ' ' :: collapse true rest
    else c :: collapse false rest

/-- `re.sub(r"[\r\n\t]", " ", text)`. -/
def subCRLF (l : List Char) : List Char :=
  l.map fun c => if crlftab c then ' ' else c

/-- Python `str.strip()` (no argument): drop `Py_UNICODE_ISSPACE`
characters from both ends. -/
def pyStrip (l : List Char) : List Char :=
  (l.dropWhile pyspace).rdropWhile pyspace

/-- `HSIDataScraper._clean_text` on the character list level: the code in
scraper_index.py and scraper.py is identical — `strip`, collapse `\s+`
runs to one space, replace `[\r\n\t]` by spaces, `strip` again. -/
def clean_chars (l : List Char) : List Char :=
  pyStrip (subCRLF (collapse false (pyStrip l)))

/-- `HSIDataScraper._clean_text` (both scraper files). Empty input yields
the empty string, exactly as `if not text: return ""`. -/
def clean_text (s : String) : String := String.mk (clean_chars s.data)

/-- Whether a character list contains two consecutive space characters. -/
def noTwoSpaces : List Char → Bool
  | c₁ :: c₂ :: rest => !(c₁ == ' ' && c₂ == ' ') && noTwoSpaces (c₂ :: rest)
  | _ => true

/-- Whether a character list is free of CR, LF and TAB. -/
def noCRLF (l : List Char) : Bool := !(l.any crlftab)

/-- Whether a character list neither starts nor ends with whitespace. -/
def trimmed (l : List Char) : Bool :=
  (match l.head? with | some c => !pyspace c | none => true) &&
  (match l.getLast? with | some c => !pyspace c | none => true)

theorem mem_collapse {c : Char} :
    ∀ {b : Bool} {l : List Char}, c ∈ collapse b l → c ∈ l ∨ c = ' ' := by
  intro b l
  induction l generalizing b with
  | nil => simp [collapse]
  | cons d rest ih =>
    intro h
    simp only [collapse] at h
    by_cases hd : pyspace d
    · rw [if_pos hd] at h
      cases b with
      | true =>
        simp only [if_pos] at h
        rcases ih h with h' | h'
        · exact Or.inl (List.mem_cons_of_mem _ h')
        · exact Or.inr h'
      | false =>
        simp only [Bool.false_eq_true, if_neg, not_false_iff] at h
        rcases List.mem_cons.mp h with h' | h'
        · exact Or.inr h'
        · rcases ih h' with h'' | h''
          · exact Or.inl (List.mem_cons_of_mem _ h'')
          · exact Or.inr h''
    · rw [if_neg hd] at h
      rcases List.mem_cons.mp h with h' | h'
      · exact Or.inl (h' ▸ List.mem_cons_self d rest)
      · rcases ih h' with h'' | h''
        · exact Or.inl (List.mem_cons_of_mem _ h'')
        · exact Or.inr h''

theorem space_of_mem_collapse {c : Char} :
    ∀ {b : Bool} {l : List Char}, c ∈ collapse b l → pyspace c = true → c = ' ' := by
  intro b l
  induction l generalizing b with
  | nil => simp [collapse]
  | cons d rest ih =>
    intro h hc
    simp only [collapse] at h
    by_cases hd : pyspace d
    · rw [if_pos hd] at h
      cases b with
      | true => exact ih h hc
      | false =>
        simp only [Bool.false_eq_true, if_neg, not_false_iff] at h
        rcases List.mem_cons.mp h with h' | h'
        · exact h'
        · exact ih h' hc
    · rw [if_neg hd] at h
      rcases List.mem_cons.mp h with h' | h'
      · subst h'; exact absurd hc hd
      · exact ih h' hc

theorem head_collapse_true {c : Char} :
    ∀ {l : List Char}, (collapse true l).head? = some c → pyspace c = false := by
  intro l
  induction l with
  | nil => simp [collapse]
  | cons d rest ih =>
    intro h
    simp only [collapse] at h
    by_cases hd : pyspace d
    · rw [if_pos hd] at h
      exact ih (by simpa using h)
    · rw [if_neg hd] at h
      simp only [List.head?_cons, Option.some.injEq] at h
      subst h
      exact Bool.eq_false_iff.mpr hd

theorem noTwoSpaces_cons {a : Char} {l : List Char} :
    noTwoSpaces (a :: l) = true ↔
      (∀ c, l.head? = some c → ¬(a = ' ' ∧ c = ' ')) ∧ noTwoSpaces l = true := by
  cases l with
  | nil => simp [noTwoSpaces]
  | cons b rest =>
    simp only [noTwoSpaces, Bool.and_eq_true, Bool.not_eq_true', List.head?_cons]
    constructor
    · rintro ⟨h1, h2⟩
      refine ⟨?_, h2⟩
      rintro c hc ⟨ha, hcs⟩
      cases hc
      subst ha
      simp [hcs] at h1
    · rintro ⟨h1, h2⟩
      refine ⟨?_, h2⟩
      by_cases ha : a = ' '
      · by_cases hb : b = ' '
        · exact absurd ⟨ha, hb⟩ (h1 b rfl)
        · simp [hb]
      · simp [ha]

theorem noTwoSpaces_collapse : ∀ {b : Bool} {l : List Char},
    noTwoSpaces (collapse b l) = true := by
  intro b l
  induction l generalizing b with
  | nil => simp [collapse, noTwoSpaces]
  | cons d rest ih =>
    simp only [collapse]
    by_cases hd : pyspace d
    · rw [if_pos hd]
      cases b with
      | true => simpa using ih
      | false =>
        simp only [Bool.false_eq_true, if_neg, not_false_iff]
        rw [noTwoSpaces_cons]
        refine ⟨?_, ih⟩
        rintro c hc ⟨_, hcs⟩
        have := head_collapse_true hc
        simp [hcs, pyspace] at this
    · rw [if_neg hd]
      rw [noTwoSpaces_cons]
      refine ⟨?_, ih⟩
      rintro c _ ⟨ha, _⟩
      subst ha
      simp [pyspace] at hd

theorem noTwoSpaces_tail {a : Char} {l : List Char}
    (h : noTwoSpaces (a :: l) = true) : noTwoSpaces l = true :=
  (noTwoSpaces_cons.mp h).2

theorem noTwoSpaces_suffix {l₁ l₂ : List Char}
    (h : l₁ <:+ l₂) (h₂ : noTwoSpaces l₂ = true) : noTwoSpaces l₁ = true := by
  obtain ⟨t, rfl⟩ := h
  induction t with
  | nil => simpa using h₂
  | cons a t ih => exact ih (noTwoSpaces_tail h₂)

theorem noTwoSpaces_append_left {l₁ t : List Char}
    (h : noTwoSpaces (l₁ ++ t) = true) : noTwoSpaces l₁ = true := by
  induction l₁ with
  | nil => simp [noTwoSpaces]
  | cons a l₁ ih =>
    rw [List.cons_append, noTwoSpaces_cons] at h
    rw [noTwoSpaces_cons]
    refine ⟨?_, ih h.2⟩
    intro c hc
    exact h.1 c (by cases l₁ <;> simp_all)

theorem noTwoSpaces_of_leading {l₁ l₂ : List Char}
    (h : l₁ <+: l₂) (h₂ : noTwoSpaces l₂ = true) : noTwoSpaces l₁ = true := by
  obtain ⟨t, rfl⟩ := h
  exact noTwoSpaces_append_left h₂

theorem head?_dropWhile {p : Char → Bool} {c : Char} :
    ∀ {l : List Char}, (l.dropWhile p).head? = some c → p c = false := by
  intro l
  induction l with
  | nil => simp
  | cons a rest ih =>
    intro h
    rw [List.dropWhile_cons] at h
    by_cases ha : p a
    · rw [if_pos ha] at h; exact ih h
    · rw [if_neg ha] at h
      simp only [List.head?_cons, Option.some.injEq] at h
      subst h
      exact Bool.eq_false_iff.mpr ha

theorem head?_of_leading {l₁ l₂ : List Char} {c : Char}
    (h : l₁ <+: l₂) (hc : l₁.head? = some c) : l₂.head? = some c := by
  obtain ⟨t, rfl⟩ := h
  cases l₁ with
  | nil => simp at hc
  | cons a l => simpa using hc

theorem getLast?_rdropWhile {p : Char → Bool} {c : Char} {l : List Char}
    (h : (l.rdropWhile p).getLast? = some c) : p c = false := by
  have hne : l.rdropWhile p ≠ [] := by
    intro he; rw [he] at h; simp at h
  have h2 := List.rdropWhile_last_not p l hne
  rw [List.getLast?_eq_getLast _ hne, Option.some.injEq] at h
  rw [← h]
  simpa using h2

theorem pyStrip_prefix_of_dropWhile (l : List Char) :
    pyStrip l <+: l.dropWhile pyspace :=
  List.rdropWhile_prefix pyspace (l.dropWhile pyspace)

theorem mem_pyStrip {c : Char} {l : List Char} (h : c ∈ pyStrip l) : c ∈ l := by
  have h1 : c ∈ (l.dropWhile pyspace) :=
    ((pyStrip_prefix_of_dropWhile l).sublist).mem h
  exact (List.dropWhile_suffix pyspace).sublist.mem h1

theorem noTwoSpaces_pyStrip {l : List Char} (h : noTwoSpaces l = true) :
    noTwoSpaces (pyStrip l) = true :=
  noTwoSpaces_of_leading (pyStrip_prefix_of_dropWhile l)
    (noTwoSpaces_suffix (List.dropWhile_suffix pyspace) h)

theorem head?_pyStrip {l : List Char} {c : Char}
    (h : (pyStrip l).head? = some c) : pyspace c = false :=
  head?_dropWhile (head?_of_leading (pyStrip_prefix_of_dropWhile l) h)

theorem getLast?_pyStrip {l : List Char} {c : Char}
    (h : (pyStrip l).getLast? = some c) : pyspace c = false :=
  getLast?_rdropWhile h

theorem subCRLF_eq_self {l : List Char}
    (h : ∀ c ∈ l, crlftab c = false) : subCRLF l = l := by
  induction l with
  | nil => rfl
  | cons a rest ih =>
    simp only [subCRLF, List.map_cons]
    rw [if_neg (by simp [h a (List.mem_cons_self a rest)])]
    have := ih fun c hc => h c (List.mem_cons_of_mem a hc)
    simpa [subCRLF] using this

theorem crlftab_pyspace {c : Char} (h : crlftab c = true) : pyspace c = true := by
  simp only [crlftab, Bool.or_eq_true, beq_iff_eq] at h
  rcases h with (h | h) | h <;> subst h <;> decide

theorem crlftab_space : crlftab ' ' = false := by decide

theorem mem_subCRLF {c : Char} {l : List Char} (h : c ∈ subCRLF l) :
    c ∈ l ∨ c = ' ' := by
  simp only [subCRLF, List.mem_map] at h
  obtain ⟨d, hd, hdc⟩ := h
  by_cases hcr : crlftab d
  · rw [if_pos hcr] at hdc; exact Or.inr hdc.symm
  · rw [if_neg hcr] at hdc; exact Or.inl (hdc ▸ hd)

theorem space_of_mem_subCRLF {c : Char} {l : List Char} (h : c ∈ subCRLF l)
    (hsp : pyspace c = true) (hl : ∀ d ∈ l, pyspace d = true → d = ' ') : c = ' ' := by
  rcases mem_subCRLF h with h' | h'
  · exact hl c h' hsp
  · exact h'

/-- Every whitespace character surviving in `clean_chars l` is a plain space. -/
theorem space_of_mem_clean {c : Char} {l : List Char}
    (h : c ∈ clean_chars l) (hsp : pyspace c = true) : c = ' ' := by
  have h1 : c ∈ subCRLF (collapse false (pyStrip l)) := mem_pyStrip h
  refine space_of_mem_subCRLF h1 hsp ?_
  intro d hd hdsp
  exact space_of_mem_collapse hd hdsp

theorem collapse_noCRLF {b : Bool} {l : List Char} :
    ∀ c ∈ collapse b l, crlftab c = false := by
  intro c hc
  by_cases hcr : crlftab c
  · have := space_of_mem_collapse hc (crlftab_pyspace hcr)
    subst this
    exact absurd hcr (by decide)
  · exact Bool.eq_false_iff.mpr hcr

theorem subCRLF_collapse (b : Bool) (l : List Char) :
    subCRLF (collapse b l) = collapse b l :=
  subCRLF_eq_self collapse_noCRLF

theorem clean_chars_eq (l : List Char) :
    clean_chars l = pyStrip (collapse false (pyStrip l)) := by
  unfold clean_chars
  rw [subCRLF_collapse]

theorem noTwoSpaces_clean (l : List Char) : noTwoSpaces (clean_chars l) = true := by
  rw [clean_chars_eq]
  exact noTwoSpaces_pyStrip noTwoSpaces_collapse

theorem noCRLF_clean (l : List Char) : noCRLF (clean_chars l) = true := by
  simp only [noCRLF, Bool.not_eq_true', List.any_eq_false]
  intro c hc
  by_cases hcr : crlftab c
  · have := space_of_mem_clean hc (crlftab_pyspace hcr)
    subst this
    exact absurd hcr (by decide)
  · exact hcr

theorem trimmed_clean (l : List Char) : trimmed (clean_chars l) = true := by
  rw [clean_chars_eq]
  simp only [trimmed, Bool.and_eq_true]
  constructor
  · cases hh : (pyStrip (collapse false (pyStrip l))).head? with
    | none => rfl
    | some c => simp [head?_pyStrip hh]
  · cases hh : (pyStrip (collapse false (pyStrip l))).getLast? with
    | none => rfl
    | some c => simp [getLast?_pyStrip hh]

theorem dropWhile_eq_self_of_head {p : Char → Bool} {l : List Char}
    (h : ∀ c, l.head? = some c → p c = false) : l.dropWhile p = l := by
  cases l with
  | nil => rfl
  | cons a rest =>
    rw [List.dropWhile_cons, if_neg]
    simp [h a rfl]

theorem rdropWhile_eq_self_of_getLast {p : Char → Bool} {l : List Char}
    (h : ∀ c, l.getLast? = some c → p c = false) : l.rdropWhile p = l := by
  rw [List.rdropWhile_eq_self_iff]
  intro hl
  have := h (l.getLast hl) (List.getLast?_eq_getLast l hl)
  simp [this]

theorem pyStrip_eq_self {l : List Char} (h : trimmed l = true) : pyStrip l = l := by
  simp only [trimmed, Bool.and_eq_true] at h
  unfold pyStrip
  rw [dropWhile_eq_self_of_head, rdropWhile_eq_self_of_getLast]
  · intro c hc
    rcases h with ⟨_, h2⟩
    rw [hc] at h2
    simpa using h2
  · intro c hc
    rcases h with ⟨h1, _⟩
    rw [hc] at h1
    simpa using h1

theorem collapse_eq_self : ∀ (l : List Char),
    (∀ c ∈ l, pyspace c = true → c = ' ') → noTwoSpaces l = true →
    collapse false l = l ∧
      ((∀ c, l.head? = some c → pyspace c = false) → collapse true l = l) := by
  intro l
  induction l with
  | nil => simp [collapse]
  | cons a r ih =>
    intro hmem hnts
    have hr := ih (fun c hc => hmem c (List.mem_cons_of_mem a hc)) (noTwoSpaces_tail hnts)
    constructor
    · by_cases hp : pyspace a
      · have ha : a = ' ' := hmem a (List.mem_cons_self a r) hp
        subst ha
        simp only [collapse, if_pos hp, Bool.false_eq_true, if_neg, not_false_iff]
        congr 1
        apply hr.2
        intro c hc
        by_cases hcs : pyspace c
        · have hc' : c ∈ r := by
            cases r with
            | nil => simp at hc
            | cons b rb => simp_all
          have : c = ' ' := hmem c (List.mem_cons_of_mem _ hc') hcs
          subst this
          exact absurd ((noTwoSpaces_cons.mp hnts).1 ' ' hc ⟨rfl, rfl⟩) (by simp)
        · exact Bool.eq_false_iff.mpr hcs
      · simp only [collapse, if_neg hp]
        rw [hr.1]
    · intro hhead
      by_cases hp : pyspace a
      · exact absurd hp (by simp [hhead a rfl])
      · simp only [collapse, if_neg hp]
        rw [hr.1]

theorem clean_chars_idem (l : List Char) :
    clean_chars (clean_chars l) = clean_chars l := by
  have hsp : ∀ c ∈ clean_chars l, pyspace c = true → c = ' ' :=
    fun c hc => space_of_mem_clean hc
  have hnts := noTwoSpaces_clean l
  have htr := trimmed_clean l
  have hhead : ∀ c, (clean_chars l).head? = some c → pyspace c = false := by
    intro c hc
    rw [clean_chars_eq] at hc
    exact head?_pyStrip hc
  have h3 : subCRLF (clean_chars l) = clean_chars l := by
    apply subCRLF_eq_self
    intro c hc
    by_cases hcr : crlftab c
    · have := hsp c hc (crlftab_pyspace hcr)
      subst this
      exact absurd hcr (by decide)
    · simpa using hcr
  show pyStrip (subCRLF (collapse false (pyStrip (clean_chars l)))) = clean_chars l
  rw [pyStrip_eq_self htr, (collapse_eq_self _ hsp hnts).1, h3, pyStrip_eq_self htr]

/-- Claim C10: text cleaning is idempotent and produces a normal form: for
every string the output of `_clean_text` contains no carriage return,
newline or tab, no two consecutive spaces, has no leading or trailing
whitespace, and cleaning is idempotent. -/
theorem c10_clean_text_normal_form (s : String) :
    noCRLF (clean_text s).data = true ∧
    noTwoSpaces (clean_text s).data = true ∧
    trimmed (clean_text s).data = true ∧
    clean_text (clean_text s) = clean_text s := by
  refine ⟨noCRLF_clean s.data, noTwoSpaces_clean s.data, trimmed_clean s.data, ?_⟩
  show String.mk (clean_chars (clean_chars s.data)) = String.mk (clean_chars s.data)
  rw [clean_chars_idem]

/-! ### ASCII case mapping and the Python float parser -/

/-- ASCII lower-casing of one character (model of Python `str.lower` on
the ASCII range, which is all the scrapers compare against). -/
def lowerC (c : Char) : Char :=
  if 65 ≤ c.toNat ∧ c.toNat ≤ 90 then Char.ofNat (c.toNat + 32) else c

/-- ASCII upper-casing of one character (model of Python `str.upper` on
the ASCII range). -/
def upperC (c : Char) : Char :=
  if 97 ≤ c.toNat ∧ c.toNat ≤ 122 then Char.ofNat (c.toNat - 32) else c

/-- Whether `pat` occurs at the start of `l`. -/
def startsWithL : List Char → List Char → Bool
  | [], _ => true
  | _ :: _, [] => false
  | p :: ps, c :: cs => p == c && startsWithL ps cs

/-- Python substring test `pat in l`. -/
def containsSub (pat : List Char) : List Char → Bool
  | [] => pat.isEmpty
  | c :: rest => startsWithL pat (c :: rest) || containsSub pat rest

/-- Numeric value of a digit string. -/
def digitsToNat (l : List Char) : ℕ :=
  l.foldl (fun n c => 10 * n + (c.toNat - 48)) 0

/-- Parse the mantissa part of a float literal: `digits [. digits]` with at
least one digit overall, nothing else. -/
def parseMantissa (l : List Char) : Option ℚ :=
  match l.dropWhile Char.isDigit with
  | [] =>
    if (l.takeWhile Char.isDigit).isEmpty then none
    else some (digitsToNat (l.takeWhile Char.isDigit) : ℚ)
  | c :: frac =>
    if c = '.' then
      if (frac.dropWhile Char.isDigit).isEmpty then
        if (l.takeWhile Char.isDigit).isEmpty && (frac.takeWhile Char.isDigit).isEmpty then none
        else some ((digitsToNat (l.takeWhile Char.isDigit) : ℚ) +
          (digitsToNat (frac.takeWhile Char.isDigit) : ℚ) /
            (10 : ℚ) ^ (frac.takeWhile Char.isDigit).length)
      else none
    else none

/-- Split a float literal at the first exponent marker `e`/`E`. -/
def splitExp : List Char → List Char × Option (List Char)
  | [] => ([], none)
  | c :: rest =>
    if c = 'e' ∨ c = 'E' then ([], some rest)
    else
      let r := splitExp rest
      (c :: r.1, r.2)

/-- Parse the exponent of a float literal: optional sign, 1+ digits. -/
def parseExpPart (l : List Char) : Option ℤ :=
  match l with
  | '+' :: d => if !d.isEmpty && d.all Char.isDigit then some (digitsToNat d : ℤ) else none
  | '-' :: d => if !d.isEmpty && d.all Char.isDigit then some (-(digitsToNat d : ℤ)) else none
  | d => if !d.isEmpty && d.all Char.isDigit then some (digitsToNat d : ℤ) else none

/-- Value of an unsigned decimal float literal. -/
def decimalVal (l : List Char) : Option ℚ :=
  match splitExp l with
  | (m, none) => parseMantissa m
  | (m, some ex) =>
    match parseMantissa m, parseExpPart ex with
    | some mv, some e => some (mv * (10 : ℚ) ^ e)
    | _, _ => none

/-- Case-insensitive comparison of a character list with a literal. -/
def lowEq (l : List Char) (s : String) : Bool := l.map lowerC == s.data

/-- Python underscore grouping in numeric literals: `float(str)` removes
an underscore standing between two digits (anywhere in the string —
mantissa or exponent digits) before the conversion; an underscore in any
other position is left in place and makes the conversion fail, exactly as
CPython rejects it (`float("1_0") = 10.0`, `float("1__0")` raises). -/
def stripU : List Char → List Char
  | a :: '_' :: b :: rest =>
    if a.isDigit ∧ b.isDigit then a :: stripU (b :: rest)
    else a :: stripU ('_' :: b :: rest)
  | a :: rest => a :: stripU rest
  | [] => []

/-- The overflow threshold of correctly-rounded string-to-double
conversion, as an exact rational: the midpoint between the largest finite
double `(2^53 - 1) * 2^971` and `2^1024`.  Round-half-to-even sends the
midpoint up to `2^1024`, so every exact magnitude `≥ (2^54 - 1) * 2^970`
converts to infinity.  CPython `float(str)` uses correctly-rounded strtod
and returns an infinity on overflow (`float("1e400") == inf`). -/
def DBL_OVERFLOW : ℚ := (2 ^ 54 - 1) * 2 ^ 970

/-- Finish converting an unsigned exact value to a double: magnitudes at
or beyond the overflow threshold saturate to the signed infinity,
everything below stays finite (the value is kept exactly; the
rounding of in-range values to 53-bit precision is not modelled). -/
def satFin (isNeg : Bool) (q : ℚ) : PyNum :=
  if DBL_OVERFLOW ≤ q then (if isNeg then .ninf else .inf)
  else .fin (if isNeg then -q else q)

/-- The part of `float(str)` after the optional sign: the spellings of
infinity and NaN, or an unsigned decimal literal (saturating to infinity
at the double-overflow threshold). -/
def unsignedFloat (l : List Char) (isNeg : Bool) : Option PyNum :=
  if lowEq l "inf" || lowEq l "infinity" then some (if isNeg then .ninf else .inf)
  else if lowEq l "nan" then some .nan
  else (decimalVal l).map (satFin isNeg)

/-- Model of Python `float(str)`: strip whitespace, remove legal digit
grouping underscores, optional sign, then an unsigned float literal;
`none` models the `ValueError` raised on malformed input (and caught by
`_parse_number`). -/
def pyFloat (l : List Char) : Option PyNum :=
  match stripU (pyStrip l) with
  | [] => none
  | c :: rest =>
    if c = '+' then unsignedFloat rest false
    else if c = '-' then unsignedFloat rest true
    else unsignedFloat (c :: rest) false

/-- `_parse_number` (identical in scraper_index.py, scraper.py and
scraper_quote.py): empty check, `_clean_text`, removal of commas and
whitespace, parentheses-as-negative, then `float`. -/
def parse_number_chars (l : List Char) : Option PyNum :=
  if l.isEmpty then none
  else
    let t2 := (clean_chars l).filter fun c => !(c == ',' || pyspace c)
    let t3 :=
      if t2.head? == some '(' && t2.getLast? == some ')' then
        '-' :: (t2.drop 1).dropLast
      else t2
    pyFloat t3

/-- `_parse_number` on strings. -/
def parse_number (s : String) : Option PyNum := parse_number_chars s.data

theorem mem_clean_chars {c : Char} {l : List Char} (h : c ∈ clean_chars l) :
    c ∈ l ∨ c = ' ' := by
  have h1 : c ∈ subCRLF (collapse false (pyStrip l)) := mem_pyStrip h
  rcases mem_subCRLF h1 with h2 | h2
  · rcases mem_collapse h2 with h3 | h3
    · exact Or.inl (mem_pyStrip h3)
    · exact Or.inr h3
  · exact Or.inr h2

theorem stripU_subset {c : Char} : ∀ {l : List Char}, c ∈ stripU l → c ∈ l := by
  intro l
  induction l using stripU.induct with
  | case1 a b rest h ih =>
    intro hm
    rw [stripU, if_pos h] at hm
    rcases List.mem_cons.mp hm with h1 | h1
    · exact h1 ▸ List.mem_cons_self _ _
    · exact List.mem_cons_of_mem _ (List.mem_cons_of_mem _ (ih h1))
  | case2 a b rest h ih =>
    intro hm
    rw [stripU, if_neg h] at hm
    rcases List.mem_cons.mp hm with h1 | h1
    · exact h1 ▸ List.mem_cons_self _ _
    · exact List.mem_cons_of_mem _ (ih h1)
  | case3 a rest h ih =>
    intro hm
    rw [stripU] at hm
    · rcases List.mem_cons.mp hm with h1 | h1
      · exact h1 ▸ List.mem_cons_self _ _
      · exact List.mem_cons_of_mem _ (ih h1)
    · exact h
  | case4 =>
    intro hm
    simp [stripU] at hm

theorem stripU_length : ∀ (l : List Char), (stripU l).length ≤ l.length := by
  intro l
  induction l using stripU.induct with
  | case1 a b rest h ih =>
    rw [stripU, if_pos h]
    simp only [List.length_cons] at ih ⊢
    omega
  | case2 a b rest h ih =>
    rw [stripU, if_neg h]
    simp only [List.length_cons] at ih ⊢
    omega
  | case3 a rest h ih =>
    rw [stripU]
    · simp only [List.length_cons]
      omega
    · exact h
  | case4 => simp [stripU]

theorem stripU_eq_self : ∀ {l : List Char}, '_' ∉ l → stripU l = l := by
  intro l
  induction l using stripU.induct with
  | case1 a b rest h ih =>
    intro hu
    exact absurd (List.mem_cons_of_mem a (List.mem_cons_self _ _)) hu
  | case2 a b rest h ih =>
    intro hu
    exact absurd (List.mem_cons_of_mem a (List.mem_cons_self _ _)) hu
  | case3 a rest h ih =>
    intro hu
    rw [stripU]
    · rw [ih (fun hm => hu (List.mem_cons_of_mem a hm))]
    · exact h
  | case4 => intro _; rfl

theorem lowEq_mem {l : List Char} {t : String} (h : lowEq l t = true) {d : Char}
    (hd : d ∈ t.data) : ∃ c ∈ l, lowerC c = d := by
  have hmap : l.map lowerC = t.data := by simpa [lowEq] using h
  rw [← hmap] at hd
  obtain ⟨c, hc, hcd⟩ := List.mem_map.mp hd
  exact ⟨c, hc, hcd⟩

theorem char_digit_toNat {c : Char} (h : c.isDigit = true) : c.toNat - 48 ≤ 9 := by
  simp only [Char.isDigit, Bool.and_eq_true, decide_eq_true_eq] at h
  have h3 : c.toNat ≤ 57 := by
    show c.val.toNat ≤ 57
    exact UInt32.le_def.mp h.2
  omega

theorem digitsToNat_go (l : List Char) : ∀ acc : ℕ, (∀ c ∈ l, c.isDigit = true) →
    l.foldl (fun n c => 10 * n + (c.toNat - 48)) acc < (acc + 1) * 10 ^ l.length := by
  induction l with
  | nil => intro acc _; simp
  | cons c rest ih =>
    intro acc hd
    simp only [List.foldl_cons, List.length_cons]
    have hdig : c.toNat - 48 ≤ 9 := char_digit_toNat (hd c (List.mem_cons_self c rest))
    calc rest.foldl (fun n c => 10 * n + (c.toNat - 48)) (10 * acc + (c.toNat - 48))
        < (10 * acc + (c.toNat - 48) + 1) * 10 ^ rest.length :=
          ih _ (fun d hdm => hd d (List.mem_cons_of_mem c hdm))
      _ ≤ ((acc + 1) * 10) * 10 ^ rest.length :=
          Nat.mul_le_mul_right _ (by omega)
      _ = (acc + 1) * 10 ^ (rest.length + 1) := by ring

theorem digitsToNat_lt {l : List Char} (h : ∀ c ∈ l, c.isDigit = true) :
    digitsToNat l < 10 ^ l.length := by
  have := digitsToNat_go l 0 h
  simpa [digitsToNat] using this

theorem parseMantissa_lt {l : List Char} {q : ℚ}
    (h : parseMantissa l = some q) : q < 10 ^ l.length := by
  have hten : (1 : ℚ) ≤ 10 := by norm_num
  have hiplen : (l.takeWhile Char.isDigit).length ≤ l.length :=
    (List.takeWhile_prefix _).sublist.length_le
  have hipdig : ∀ c ∈ l.takeWhile Char.isDigit, c.isDigit = true :=
    fun c hc => List.mem_takeWhile_imp hc
  have hiplt : (digitsToNat (l.takeWhile Char.isDigit) : ℚ) <
      (10 : ℚ) ^ (l.takeWhile Char.isDigit).length := by
    exact_mod_cast digitsToNat_lt hipdig
  have hpowle : (10 : ℚ) ^ (l.takeWhile Char.isDigit).length ≤ (10 : ℚ) ^ l.length :=
    pow_le_pow_right hten hiplen
  unfold parseMantissa at h
  split at h
  · split at h
    · exact absurd h (by simp)
    · simp only [Option.some.injEq] at h
      rw [← h]
      linarith
  · rename_i c frac heq
    split at h
    · split at h
      · split at h
        · exact absurd h (by simp)
        · simp only [Option.some.injEq] at h
          rw [← h]
          have hfd : ∀ d ∈ frac.takeWhile Char.isDigit, d.isDigit = true :=
            fun d hd => List.mem_takeWhile_imp hd
          have hfrac : (digitsToNat (frac.takeWhile Char.isDigit) : ℚ) /
              (10 : ℚ) ^ (frac.takeWhile Char.isDigit).length < 1 := by
            rw [div_lt_one (by positivity)]
            exact_mod_cast digitsToNat_lt hfd
          have hip1 : (digitsToNat (l.takeWhile Char.isDigit) : ℚ) + 1 ≤
              (10 : ℚ) ^ (l.takeWhile Char.isDigit).length := by
            exact_mod_cast Nat.succ_le_of_lt (digitsToNat_lt hipdig)
          linarith
      · exact absurd h (by simp)
    · exact absurd h (by simp)

theorem splitExp_eq_self : ∀ {l : List Char}, 'e' ∉ l → 'E' ∉ l →
    splitExp l = (l, none) := by
  intro l
  induction l with
  | nil => intro _ _; rfl
  | cons c rest ih =>
    intro h1 h2
    have hc : ¬(c = 'e' ∨ c = 'E') := by
      rintro (h' | h')
      · exact h1 (h' ▸ List.mem_cons_self c rest)
      · exact h2 (h' ▸ List.mem_cons_self c rest)
    simp only [splitExp, if_neg hc]
    rw [ih (fun hm => h1 (List.mem_cons_of_mem c hm))
        (fun hm => h2 (List.mem_cons_of_mem c hm))]

theorem decimalVal_lt {l : List Char} {q : ℚ} (h1 : 'e' ∉ l) (h2 : 'E' ∉ l)
    (h : decimalVal l = some q) : q < 10 ^ l.length := by
  unfold decimalVal at h
  rw [splitExp_eq_self h1 h2] at h
  exact parseMantissa_lt h

theorem collapse_length : ∀ (b : Bool) (l : List Char),
    (collapse b l).length ≤ l.length := by
  intro b l
  induction l generalizing b with
  | nil => simp [collapse]
  | cons c rest ih =>
    simp only [collapse]
    by_cases hc : pyspace c
    · rw [if_pos hc]
      cases b with
      | true =>
        simp only [if_pos]
        exact (ih true).trans (by simp)
      | false =>
        simp only [Bool.false_eq_true, if_neg, not_false_iff, List.length_cons]
        exact Nat.succ_le_succ (ih true)
    · rw [if_neg hc]
      simp only [List.length_cons]
      exact Nat.succ_le_succ (ih false)

theorem pyStrip_length (l : List Char) : (pyStrip l).length ≤ l.length :=
  le_trans ((List.rdropWhile_prefix pyspace (l.dropWhile pyspace)).sublist.length_le)
    ((List.dropWhile_suffix pyspace).sublist.length_le)

theorem clean_chars_length (l : List Char) : (clean_chars l).length ≤ l.length := by
  unfold clean_chars
  calc (pyStrip (subCRLF (collapse false (pyStrip l)))).length
      ≤ (subCRLF (collapse false (pyStrip l))).length := pyStrip_length _
    _ = (collapse false (pyStrip l)).length := by simp [subCRLF]
    _ ≤ (pyStrip l).length := collapse_length _ _
    _ ≤ l.length := pyStrip_length _

theorem unsignedFloat_finite {l : List Char} {b : Bool} {v : PyNum}
    (h : unsignedFloat l b = some v) (hlen : l.length ≤ 308)
    (hsafe : ∀ c ∈ l, lowerC c ≠ 'n' ∧ lowerC c ≠ 'e') : v.isFinite = true := by
  have hnoN : ∀ t : String, 'n' ∈ t.data → lowEq l t = false := by
    intro t hn
    by_cases hq : lowEq l t
    · obtain ⟨c, hc, hlc⟩ := lowEq_mem hq hn
      exact absurd hlc (hsafe c hc).1
    · simpa using hq
  have hc1 : (lowEq l "inf" || lowEq l "infinity") = false := by
    simp [hnoN "inf" (by decide), hnoN "infinity" (by decide)]
  have hc2 : lowEq l "nan" = false := hnoN "nan" (by decide)
  unfold unsignedFloat at h
  rw [if_neg (by simp [hc1]), if_neg (by simp [hc2])] at h
  obtain ⟨q, hq, hv⟩ := Option.map_eq_some'.mp h
  have he' : 'e' ∉ l := fun hm => (hsafe _ hm).2 (by decide)
  have hE' : 'E' ∉ l := fun hm => (hsafe _ hm).2 (by decide)
  have hlt : q < 10 ^ l.length := decimalVal_lt he' hE' hq
  have hlt2 : q < DBL_OVERFLOW := by
    have hchain : (10 : ℚ) ^ l.length ≤ 10 ^ 308 :=
      pow_le_pow_right (by norm_num) hlen
    have hB : (10 : ℚ) ^ 308 < DBL_OVERFLOW := by norm_num [DBL_OVERFLOW]
    linarith
  rw [← hv]
  unfold satFin
  rw [if_neg (not_le.mpr hlt2)]
  rfl

theorem pyFloat_finite {l src : List Char} {v : PyNum}
    (h : pyFloat l = some v) (hlen : l.length ≤ 308)
    (hmem : ∀ c ∈ l, c ∈ src ∨ c = ' ' ∨ c = '-')
    (hchars : ∀ c ∈ src, lowerC c ≠ 'n' ∧ lowerC c ≠ 'e') : v.isFinite = true := by
  have hsafe : ∀ c ∈ l, lowerC c ≠ 'n' ∧ lowerC c ≠ 'e' := by
    intro c hc
    rcases hmem c hc with h' | h' | h'
    · exact hchars c h'
    · subst h'; exact ⟨by decide, by decide⟩
    · subst h'; exact ⟨by decide, by decide⟩
  unfold pyFloat at h
  split at h
  · exact absurd h (by simp)
  · rename_i c₀ rest hps
    have hmsub : ∀ d ∈ c₀ :: rest, d ∈ l := by
      intro d hd
      exact mem_pyStrip (stripU_subset (hps ▸ hd))
    have hmlen : (c₀ :: rest).length ≤ 308 := by
      have hle : (stripU (pyStrip l)).length ≤ l.length :=
        (stripU_length _).trans (pyStrip_length l)
      rw [hps] at hle
      omega
    have hsafe' : ∀ d ∈ c₀ :: rest, lowerC d ≠ 'n' ∧ lowerC d ≠ 'e' :=
      fun d hd => hsafe d (hmsub d hd)
    have hrlen : rest.length ≤ 308 := by
      simp only [List.length_cons] at hmlen
      omega
    have hrsafe : ∀ d ∈ rest, lowerC d ≠ 'n' ∧ lowerC d ≠ 'e' :=
      fun d hd => hsafe' d (List.mem_cons_of_mem c₀ hd)
    by_cases h1 : c₀ = '+'
    · rw [if_pos h1] at h
      exact unsignedFloat_finite h hrlen hrsafe
    · rw [if_neg h1] at h
      by_cases h2 : c₀ = '-'
      · rw [if_pos h2] at h
        exact unsignedFloat_finite h hrlen hrsafe
      · rw [if_neg h2] at h
        exact unsignedFloat_finite h hmlen hsafe'

theorem parse_number_finite_of_small {l : List Char} {v : PyNum}
    (h : parse_number_chars l = some v) (hlen : l.length ≤ 308)
    (hchars : ∀ c ∈ l, lowerC c ≠ 'n' ∧ lowerC c ≠ 'e') : v.isFinite = true := by
  unfold parse_number_chars at h
  by_cases he0 : l.isEmpty
  · rw [if_pos he0] at h
    exact absurd h (by simp)
  · rw [if_neg he0] at h
    simp only at h
    revert h
    set t2 := (clean_chars l).filter (fun c => !(c == ',' || pyspace c)) with ht2
    intro h
    have ht2mem : ∀ c ∈ t2, c ∈ l ∨ c = ' ' := by
      intro c hc
      exact mem_clean_chars (List.mem_filter.mp hc).1
    have ht2len : t2.length ≤ l.length :=
      (List.length_filter_le _ _).trans (clean_chars_length l)
    by_cases hp : (t2.head? == some '(' && t2.getLast? == some ')') = true
    · rw [if_pos hp] at h
      have ht2ne : 1 ≤ t2.length := by
        cases ht : t2 with
        | nil => rw [ht] at hp; simp at hp
        | cons a r => simp [ht]
      refine pyFloat_finite h ?_ ?_ hchars
      · simp only [List.length_cons, List.length_dropLast, List.length_drop]
        omega
      · intro c hc
        rcases List.mem_cons.mp hc with h' | h'
        · exact Or.inr (Or.inr h')
        · have h'' : c ∈ t2 :=
            (List.drop_sublist 1 t2).mem ((List.dropLast_sublist _).mem h')
          rcases ht2mem c h'' with h3 | h3
          · exact Or.inl h3
          · exact Or.inr (Or.inl h3)
    · rw [if_neg hp] at h
      refine pyFloat_finite h (ht2len.trans hlen) ?_ hchars
      intro c hc
      rcases ht2mem c hc with h3 | h3
      · exact Or.inl h3
      · exact Or.inr (Or.inl h3)

/-- The character class `[\d,\.]` (equivalently `[0-9,.]`) used by the
change-string patterns. -/
def numChar (c : Char) : Bool := c.isDigit || c == ',' || c == '.'

theorem parseMantissa_nonneg {l : List Char} {q : ℚ}
    (h : parseMantissa l = some q) : 0 ≤ q := by
  unfold parseMantissa at h
  split at h
  · split at h
    · simp at h
    · simp only [Option.some.injEq] at h
      rw [← h]
      positivity
  · split at h
    · split at h
      · split at h
        · simp at h
        · simp only [Option.some.injEq] at h
          rw [← h]
          positivity
      · simp at h
    · simp at h

theorem decimalVal_nonneg {l : List Char} {q : ℚ}
    (h : decimalVal l = some q) : 0 ≤ q := by
  unfold decimalVal at h
  split at h
  · exact parseMantissa_nonneg h
  · split at h
    · rename_i mv e hmv hex
      simp only [Option.some.injEq] at h
      rw [← h]
      have h1 : 0 ≤ mv := parseMantissa_nonneg hmv
      positivity
    · simp at h

theorem unsignedFloat_false_fin_nonneg {l : List Char} {q : ℚ}
    (h : unsignedFloat l false = some (.fin q)) : 0 ≤ q := by
  unfold unsignedFloat at h
  split at h
  · simp at h
  · split at h
    · simp at h
    · simp only [Option.map_eq_some'] at h
      obtain ⟨q', hq', he⟩ := h
      unfold satFin at he
      split at he
      · simp at he
      · simp at he
        subst he
        exact decimalVal_nonneg hq'

theorem getLast?_mem {l : List Char} {c : Char} (h : l.getLast? = some c) : c ∈ l := by
  have hne : l ≠ [] := by intro he; rw [he] at h; simp at h
  rw [List.getLast?_eq_getLast l hne, Option.some.injEq] at h
  rw [← h]
  exact List.getLast_mem hne

theorem parse_number_nonneg {l : List Char} {q : ℚ}
    (hchars : ∀ c ∈ l, c = '+' ∨ numChar c = true)
    (h : parse_number_chars l = some (.fin q)) : 0 ≤ q := by
  unfold parse_number_chars at h
  by_cases he : l.isEmpty
  · rw [if_pos he] at h; simp at h
  · rw [if_neg he] at h
    simp only at h
    set t2 := (clean_chars l).filter (fun c => !(c == ',' || pyspace c)) with ht2
    have ht2mem : ∀ c ∈ t2, (c = '+' ∨ numChar c = true) ∧ pyspace c = false := by
      intro c hc
      have hf := List.mem_filter.mp hc
      have hps : pyspace c = false := by
        have := hf.2
        simp only [Bool.not_eq_true', Bool.or_eq_false_iff] at this
        exact this.2
      rcases mem_clean_chars hf.1 with h' | h'
      · exact ⟨hchars c h', hps⟩
      · subst h'
        exact absurd hps (by decide)
    have hparen : (t2.head? == some '(' && t2.getLast? == some ')') = false := by
      cases ht : t2 with
      | nil => simp
      | cons a r =>
        have ha := ht2mem a (ht ▸ List.mem_cons_self a r)
        have : a ≠ '(' := by
          rcases ha.1 with h' | h' <;> intro hh <;> subst hh
          · exact absurd h' (by decide)
          · exact absurd h' (by decide)
        simp [this]
    rw [hparen] at h
    simp only [Bool.false_eq_true, if_neg, not_false_iff] at h
    have hstrip : pyStrip t2 = t2 := by
      unfold pyStrip
      rw [dropWhile_eq_self_of_head, rdropWhile_eq_self_of_getLast]
      · intro c hc
        exact (ht2mem c (getLast?_mem hc)).2
      · intro c hc
        cases ht : t2 with
        | nil => rw [ht] at hc; simp at hc
        | cons a r =>
          rw [ht] at hc
          simp only [List.head?_cons, Option.some.injEq] at hc
          subst hc
          exact (ht2mem a (ht ▸ List.mem_cons_self a r)).2
    have hstripu : stripU t2 = t2 := stripU_eq_self (by
      intro hm
      rcases (ht2mem '_' hm).1 with h' | h'
      · exact absurd h' (by decide)
      · exact absurd h' (by decide))
    unfold pyFloat at h
    rw [hstrip, hstripu] at h
    cases ht : t2 with
    | nil => rw [ht] at h; simp at h
    | cons c₀ rest =>
      rw [ht] at h
      simp only at h
      have hc₀ := (ht2mem c₀ (ht ▸ List.mem_cons_self c₀ rest)).1
      have hnm : c₀ ≠ '-' := by
        rcases hc₀ with h' | h' <;> intro hh <;> subst hh
        · exact absurd h' (by decide)
        · exact absurd h' (by decide)
      by_cases hp : c₀ = '+'
      · rw [if_pos hp] at h
        exact unsignedFloat_false_fin_nonneg h
      · rw [if_neg hp, if_neg hnm] at h
        exact unsignedFloat_false_fin_nonneg h

/-- Claim C4 counterexample: on the input string `inf` the parse routine
returns a value (Python `float("inf")`), and that value is not finite —
against the claim that every non-absent result is a valid finite number. -/
theorem c4_counterexample : (parse_number "inf").map PyNum.isFinite = some false := by
  decide

set_option maxHeartbeats 1000000 in
/-- Claim C4 (amended): `_parse_number` is total — for every string it
returns a value or `none`, never an exception (the embedding is a total
function).  The result is not always finite: `float` accepts the
spellings of infinity and NaN, and a finite decimal beyond the double
range saturates to infinity (`_parse_number("1e400")` is `inf`); but on
any input of at most 308 characters containing no `n`/`N` (no
infinity/NaN spelling) and no `e`/`E` (no exponent), a returned value is
finite.  On the listed inputs: `(123.45)` parses to `-123.45`,
`1,234.56` parses to `1234.56`, and `invalid` is absent. -/
theorem c4_parse_number_total :
    (∀ (s : String) (v : PyNum), parse_number s = some v →
      s.data.length ≤ 308 → (∀ c ∈ s.data, lowerC c ≠ 'n' ∧ lowerC c ≠ 'e') →
      v.isFinite = true) ∧
    parse_number "(123.45)" = some (.fin (-123.45)) ∧
    parse_number "1,234.56" = some (.fin 1234.56) ∧
    parse_number "invalid" = none ∧
    parse_number "1e400" = some PyNum.inf := by
  refine ⟨?_, ?_, ?_, by decide, ?_⟩
  · intro s v h hlen hchars
    exact parse_number_finite_of_small h hlen hchars
  · simp [parse_number, parse_number_chars, clean_chars, pyStrip, collapse,
      subCRLF, pyFloat, stripU, unsignedFloat, satFin, DBL_OVERFLOW,
      decimalVal, splitExp, parseMantissa,
      parseExpPart, lowEq, lowerC, digitsToNat, pyspace, crlftab, CR, LF, TAB,
      List.dropWhile, List.takeWhile, List.rdropWhile, Char.isDigit, Char.toNat,
      UInt32.size, UInt32.toNat]
    norm_num
  · simp [parse_number, parse_number_chars, clean_chars, pyStrip, collapse,
      subCRLF, pyFloat, stripU, unsignedFloat, satFin, DBL_OVERFLOW,
      decimalVal, splitExp, parseMantissa,
      parseExpPart, lowEq, lowerC, digitsToNat, pyspace, crlftab, CR, LF, TAB,
      List.dropWhile, List.takeWhile, List.rdropWhile, Char.isDigit, Char.toNat,
      UInt32.size, UInt32.toNat]
    norm_num
  · simp [parse_number, parse_number_chars, clean_chars, pyStrip, collapse,
      subCRLF, pyFloat, stripU, unsignedFloat, satFin, DBL_OVERFLOW,
      decimalVal, splitExp, parseMantissa,
      parseExpPart, lowEq, lowerC, digitsToNat, pyspace, crlftab, CR, LF, TAB,
      List.dropWhile, List.takeWhile, List.rdropWhile, Char.isDigit, Char.toNat,
      UInt32.size, UInt32.toNat]
    norm_num

/-- Witness for the amended C4 theorem at the concrete input `1,234.56`,
whose parse the theorem itself supplies. -/
theorem c4_witness : PyNum.isFinite (PyNum.fin (1234.56 : ℚ)) = true :=
  c4_parse_number_total.1 "1,234.56" (.fin 1234.56)
    c4_parse_number_total.2.2.1 (by decide) (by decide)

/-! ### `_parse_change_string` (scraper_index.py) -/

/-- Consume an optional leading sign, as `[+-]?` does; returns the consumed
sign characters and the remainder. -/
def takeSign : List Char → List Char × List Char
  | [] => ([], [])
  | c :: rest => if c = '+' ∨ c = '-' then ([c], rest) else ([], c :: rest)

/-- Matcher for the anchored pattern
`^([+-]?[\d,\.]+)\s*\(([+-]?[\d,\.]+)%\)$` of `_parse_change_string`;
returns the two captured groups (sign included, as in the regex). -/
def matchIdxChange (l : List Char) : Option (List Char × List Char) :=
  if ((takeSign l).2.takeWhile numChar).isEmpty then none
  else
    match ((takeSign l).2.dropWhile numChar).dropWhile pyspace with
    | '(' :: r4 =>
      if ((takeSign r4).2.takeWhile numChar).isEmpty then none
      else
        match (takeSign r4).2.dropWhile numChar with
        | '%' :: ')' :: r7 =>
          if r7.isEmpty then
            some ((takeSign l).1 ++ (takeSign l).2.takeWhile numChar,
                  (takeSign r4).1 ++ (takeSign r4).2.takeWhile numChar)
          else none
        | _ => none
    | _ => none

/-- `_parse_change_string` on character lists: empty check, clean, match
the pattern, parse both groups with `_parse_number`. -/
def parse_change_chars (l : List Char) : Option PyNum × Option PyNum :=
  if l.isEmpty then (none, none)
  else
    match matchIdxChange (clean_chars l) with
    | some g => (parse_number_chars g.1, parse_number_chars g.2)
    | none => (none, none)

/-- `HSIDataScraper._parse_change_string` (scraper_index.py). -/
def parse_change_string (s : String) : Option PyNum × Option PyNum :=
  parse_change_chars s.data

/-- The option holds no negative finite value. -/
def geZeroOpt (o : Option PyNum) : Prop := ∀ q : ℚ, o = some (.fin q) → 0 ≤ q

/-- The option holds no positive finite value. -/
def leZeroOpt (o : Option PyNum) : Prop := ∀ q : ℚ, o = some (.fin q) → q ≤ 0

theorem takeSign_mem {l : List Char} {c : Char} (h : c ∈ (takeSign l).1) :
    c = '+' ∨ c = '-' := by
  cases l with
  | nil => simp [takeSign] at h
  | cons a rest =>
    simp only [takeSign] at h
    by_cases ha : a = '+' ∨ a = '-'
    · rw [if_pos ha] at h
      simp only [List.mem_singleton] at h
      subst h
      exact ha
    · rw [if_neg ha] at h
      simp at h

theorem matchIdxChange_mem {l : List Char} {g : List Char × List Char}
    (h : matchIdxChange l = some g) :
    (∀ c ∈ g.1, c = '+' ∨ c = '-' ∨ numChar c = true) ∧
    (∀ c ∈ g.2, c = '+' ∨ c = '-' ∨ numChar c = true) := by
  unfold matchIdxChange at h
  split at h
  · exact absurd h (by simp)
  · split at h
    · split at h
      · exact absurd h (by simp)
      · split at h
        · split at h
          · simp only [Option.some.injEq] at h
            subst h
            constructor
            · intro c hc
              rcases List.mem_append.mp hc with h' | h'
              · rcases takeSign_mem h' with h'' | h''
                · exact Or.inl h''
                · exact Or.inr (Or.inl h'')
              · exact Or.inr (Or.inr (List.mem_takeWhile_imp h'))
            · intro c hc
              rcases List.mem_append.mp hc with h' | h'
              · rcases takeSign_mem h' with h'' | h''
                · exact Or.inl h''
                · exact Or.inr (Or.inl h'')
              · exact Or.inr (Or.inr (List.mem_takeWhile_imp h'))
          · exact absurd h (by simp)
        · exact absurd h (by simp)
    · exact absurd h (by simp)

/-- Claim C5 counterexample: the pattern of `_parse_change_string` allows an
explicit leading sign and the sign is preserved in the output, so on
`-14.76 (0.06%)` the first component is negative — against the claim that
matched components are always unsigned (non-negative). -/
theorem c5_counterexample :
    parse_change_string "-14.76 (0.06%)" = (some (.fin (-14.76)), some (.fin 0.06)) ∧
    (-14.76 : ℚ) < 0 := by
  constructor
  · simp [parse_change_string, parse_change_chars, matchIdxChange, takeSign,
      numChar, parse_number_chars, clean_chars, pyStrip, collapse, subCRLF,
      pyFloat, stripU, unsignedFloat, satFin, DBL_OVERFLOW, decimalVal, splitExp, parseMantissa, parseExpPart,
      lowEq, lowerC, digitsToNat, pyspace, crlftab, CR, LF, TAB,
      List.dropWhile, List.takeWhile, List.rdropWhile, Char.isDigit, Char.toNat,
      UInt32.size, UInt32.toNat]
    norm_num
  · norm_num

/-- Claim C5 (amended): on input that does not match the pattern
`<number> (<number>%)` the parser returns `(absent, absent)`; the two
captured groups may carry an explicit leading sign which is preserved, and
a component is guaranteed non-negative whenever its matched group carries
no minus sign; `14.76 (0.06%)` parses to `(14.76, 0.06)` and
`not a match` to `(absent, absent)`. -/
theorem c5_parse_change_string :
    (∀ s : String, matchIdxChange (clean_chars s.data) = none →
      parse_change_string s = (none, none)) ∧
    (∀ (s : String) (g : List Char × List Char),
      matchIdxChange (clean_chars s.data) = some g →
      (('-' ∉ g.1 → geZeroOpt (parse_change_string s).1) ∧
       ('-' ∉ g.2 → geZeroOpt (parse_change_string s).2))) ∧
    parse_change_string "14.76 (0.06%)" = (some (.fin 14.76), some (.fin 0.06)) ∧
    parse_change_string "not a match" = (none, none) := by
  refine ⟨?_, ?_, ?_, ?_⟩
  · intro s h
    unfold parse_change_string parse_change_chars
    by_cases he : s.data.isEmpty
    · rw [if_pos he]
    · rw [if_neg he, h]
  · intro s g h
    have hmem := matchIdxChange_mem h
    have hres : parse_change_string s = (parse_number_chars g.1, parse_number_chars g.2) := by
      unfold parse_change_string parse_change_chars
      by_cases he : s.data.isEmpty
      · exfalso
        have hd : s.data = [] := by simpa [List.isEmpty_iff] using he
        rw [hd, show clean_chars [] = [] from rfl] at h
        have hnone : matchIdxChange ([] : List Char) = none := by decide
        rw [hnone] at h
        exact Option.noConfusion h
      · rw [if_neg he, h]
    constructor
    · intro hno
      rw [hres]
      intro q hq
      refine parse_number_nonneg ?_ hq
      intro c hc
      rcases (hmem.1 c hc) with h' | h' | h'
      · exact Or.inl h'
      · exact absurd (h' ▸ hc) hno
      · exact Or.inr h'
    · intro hno
      rw [hres]
      intro q hq
      refine parse_number_nonneg ?_ hq
      intro c hc
      rcases (hmem.2 c hc) with h' | h' | h'
      · exact Or.inl h'
      · exact absurd (h' ▸ hc) hno
      · exact Or.inr h'
  · simp [parse_change_string, parse_change_chars, matchIdxChange, takeSign,
      numChar, parse_number_chars, clean_chars, pyStrip, collapse, subCRLF,
      pyFloat, stripU, unsignedFloat, satFin, DBL_OVERFLOW, decimalVal, splitExp, parseMantissa, parseExpPart,
      lowEq, lowerC, digitsToNat, pyspace, crlftab, CR, LF, TAB,
      List.dropWhile, List.takeWhile, List.rdropWhile, Char.isDigit, Char.toNat,
      UInt32.size, UInt32.toNat]
    norm_num
  · simp [parse_change_string, parse_change_chars, matchIdxChange, takeSign,
      numChar, parse_number_chars, clean_chars, pyStrip, collapse, subCRLF,
      pyFloat, stripU, unsignedFloat, satFin, DBL_OVERFLOW, decimalVal, splitExp, parseMantissa, parseExpPart,
      lowEq, lowerC, digitsToNat, pyspace, crlftab, CR, LF, TAB,
      List.dropWhile, List.takeWhile, List.rdropWhile, Char.isDigit, Char.toNat,
      UInt32.size, UInt32.toNat]

/-- Witness for the amended C5 theorem: the no-match branch at the
concrete input `not a match`, and the sign guarantee at `14.76 (0.06%)`. -/
theorem c5_witness :
    parse_change_string "not a match" = (none, none) ∧
    geZeroOpt (parse_change_string "14.76 (0.06%)").1 := by
  constructor
  · refine c5_parse_change_string.1 "not a match" ?_
    simp [matchIdxChange, takeSign, numChar, clean_chars, pyStrip, collapse,
      subCRLF, pyspace, crlftab, CR, LF, TAB, List.dropWhile, List.takeWhile,
      List.rdropWhile, Char.isDigit, Char.toNat, UInt32.size, UInt32.toNat]
  · refine (c5_parse_change_string.2.1 "14.76 (0.06%)"
      ("14.76".data, "0.06".data) ?_).1 ?_
    · simp [matchIdxChange, takeSign, numChar, clean_chars, pyStrip, collapse,
        subCRLF, pyspace, crlftab, CR, LF, TAB, List.dropWhile, List.takeWhile,
        List.rdropWhile, Char.isDigit, Char.toNat, UInt32.size, UInt32.toNat]
    · decide

/-! ### Index-page extraction (scraper_index.py)

The page is abstracted by the texts behind the four CSS selectors that
`get_hsi_data` queries: the current-value div, the turnover span, the
arrow span nested in the change span, and the change span itself.  A
`none` field models a selector miss (`select_one` returning `None`). -/

structure IndexMarkup where
  lastText : Option String
  turnoverText : Option String
  arrowText : Option String
  changeText : Option String

/-- `re.sub(r"^[▲▼]\s*", "", text)`: one leading arrow glyph and the
whitespace after it are removed. -/
def stripArrow (l : List Char) : List Char :=
  match l with
  | [] => []
  | c :: rest => if c = '▲' ∨ c = '▼' then rest.dropWhile pyspace else c :: rest

/-- The `is_negative` flag of `_extract_change_data`: a `▼` in the cleaned
text of the nested arrow span; `False` when the arrow span is missing. -/
def index_change_is_negative (m : IndexMarkup) : Bool :=
  match m.arrowText with
  | some a => (clean_chars a.data).contains '▼'
  | none => false

/-- The change pair parsed from the cleaned, arrow-stripped change text,
before the sign from the arrow is applied. -/
def index_change_raw (m : IndexMarkup) : Option PyNum × Option PyNum :=
  match m.changeText with
  | none => (none, none)
  | some t => parse_change_chars (stripArrow (clean_chars t.data))

/-- `HSIDataScraper._extract_change_data` (scraper_index.py): parse the
change text and negate both components when the arrow says down. -/
def extract_change_data (m : IndexMarkup) : Option PyNum × Option PyNum :=
  (if index_change_is_negative m then (index_change_raw m).1.map PyNum.neg
   else (index_change_raw m).1,
   if index_change_is_negative m then (index_change_raw m).2.map PyNum.neg
   else (index_change_raw m).2)

/-- `HSIDataScraper._extract_current_point`: clean the selected text and
parse it; a selector miss yields `none`. -/
def extract_current_point (m : IndexMarkup) : Option PyNum :=
  match m.lastText with
  | none => none
  | some t => parse_number_chars (clean_chars t.data)

/-- The character class `[BMK]` with `re.I`. -/
def bmkChar (c : Char) : Bool := upperC c == 'B' || upperC c == 'M' || upperC c == 'K'

/-- `re.search(r"([\d,\.]+)\s*([BMK])", text, re.I)`: scan left to right
for a run of number characters followed by optional whitespace and a unit
letter; returns the run and the upper-cased unit. -/
def searchTurnover : List Char → Option (List Char × Char)
  | [] => none
  | c :: rest =>
    if numChar c then
      match ((c :: rest).dropWhile numChar).dropWhile pyspace with
      | d :: _ =>
        if bmkChar d then some ((c :: rest).takeWhile numChar, upperC d)
        else searchTurnover rest
      | [] => searchTurnover rest
    else searchTurnover rest

/-- The `{"B": 1e9, "M": 1e6, "K": 1e3}.get(unit, 1)` multiplier. -/
def unitMultiplier (u : Char) : ℚ :=
  if u = 'B' then 1000000000 else if u = 'M' then 1000000
  else if u = 'K' then 1000 else 1

/-- `HSIDataScraper._extract_turnover` (scraper_index.py): find a
number-with-unit pattern and scale, falling back to a raw parse of the
whole text (also when the matched value is falsy, per `if value and unit:`). -/
def extract_turnover (m : IndexMarkup) : Option PyNum :=
  match m.turnoverText with
  | none => none
  | some t =>
    match searchTurnover (clean_chars t.data) with
    | some (numStr, u) =>
      if truthy (parse_number_chars numStr) then
        (parse_number_chars numStr).map (fun v => v.mulPos (unitMultiplier u))
      else parse_number_chars (clean_chars t.data)
    | none => parse_number_chars (clean_chars t.data)

/-- The result record of `get_hsi_data` (without the constant
timestamp/source/url bookkeeping fields). -/
structure HsiData where
  current_point : Option PyNum
  daily_change_point : Option PyNum
  daily_change_percent : Option PyNum
  turnover : Option PyNum
deriving DecidableEq, Repr

/-- `HSIDataScraper.get_hsi_data` (scraper_index.py) on an abstracted
page: each field is produced by its own extractor. -/
def get_hsi_data (m : IndexMarkup) : HsiData :=
  { current_point := extract_current_point m
    daily_change_point := (extract_change_data m).1
    daily_change_percent := (extract_change_data m).2
    turnover := extract_turnover m }

theorem map_neg_fin {o : Option PyNum} {q : ℚ}
    (h : o.map PyNum.neg = some (.fin q)) : o = some (.fin (-q)) := by
  obtain ⟨v, hv, hvq⟩ := Option.map_eq_some'.mp h
  cases v with
  | fin p =>
    simp only [PyNum.neg, PyNum.fin.injEq] at hvq
    rw [hv]
    rw [show p = -q by rw [← hvq]; ring]
  | inf => simp [PyNum.neg] at hvq
  | ninf => simp [PyNum.neg] at hvq
  | nan => simp [PyNum.neg] at hvq

/-- Claim C3 counterexample: with a `▼` arrow and change text carrying an
explicit minus (`▼-1 (1%)`), the extraction returns point `+1` and percent
`-1`: the signs are mixed, and the point is positive despite the down
indicator — against both parts of the claim. -/
theorem c3_counterexample :
    index_change_is_negative ⟨none, none, some "▼", some "▼-1 (1%)"⟩ = true ∧
    extract_change_data ⟨none, none, some "▼", some "▼-1 (1%)"⟩ =
      (some (.fin 1), some (.fin (-1))) ∧
    (0 : ℚ) < 1 := by
  refine ⟨by decide, ?_, by norm_num⟩
  simp [extract_change_data, index_change_is_negative, index_change_raw,
    stripArrow, parse_change_chars, matchIdxChange, takeSign, numChar,
    parse_number_chars, clean_chars, pyStrip, collapse, subCRLF, pyFloat,
    stripU, unsignedFloat, satFin, DBL_OVERFLOW, decimalVal, splitExp,
    parseMantissa, parseExpPart, lowEq,
    lowerC, digitsToNat, pyspace, crlftab, CR, LF, TAB, PyNum.neg,
    List.dropWhile, List.takeWhile, List.rdropWhile, List.contains, List.elem,
    Char.isDigit, Char.toNat, UInt32.size, UInt32.toNat] <;> norm_num

/-- Claim C3 (amended): provided the magnitudes parsed from the
arrow-stripped change text are unsigned (non-negative) — which is the
layout the routine is written for — the returned pair never mixes signs:
with a `▼` indicator both components are ≤ 0, otherwise both are ≥ 0. -/
theorem c3_sign_covariance (m : IndexMarkup)
    (h1 : geZeroOpt (index_change_raw m).1) (h2 : geZeroOpt (index_change_raw m).2) :
    (index_change_is_negative m = true →
      leZeroOpt (extract_change_data m).1 ∧ leZeroOpt (extract_change_data m).2) ∧
    (index_change_is_negative m = false →
      geZeroOpt (extract_change_data m).1 ∧ geZeroOpt (extract_change_data m).2) := by
  constructor
  · intro hneg
    unfold extract_change_data
    rw [hneg]
    simp only [if_pos]
    constructor
    · intro q hq
      have := h1 (-q) (map_neg_fin hq)
      linarith
    · intro q hq
      have := h2 (-q) (map_neg_fin hq)
      linarith
  · intro hpos
    unfold extract_change_data
    rw [hpos]
    simp only [Bool.false_eq_true, if_neg, not_false_iff]
    exact ⟨h1, h2⟩

/-- Witness for the amended C3 theorem at a concrete down-arrow markup:
`▼ 14.76 (0.06%)` yields two non-positive components. -/
theorem c3_witness :
    leZeroOpt (extract_change_data ⟨none, none, some "▼", some "▼14.76 (0.06%)"⟩).1 ∧
    leZeroOpt (extract_change_data ⟨none, none, some "▼", some "▼14.76 (0.06%)"⟩).2 := by
  have hval : index_change_raw ⟨none, none, some "▼", some "▼14.76 (0.06%)"⟩ =
      (some (.fin (1476 / 100)), some (.fin (6 / 100))) := by
    simp [index_change_raw, stripArrow, parse_change_chars, matchIdxChange,
      takeSign, numChar, parse_number_chars, clean_chars, pyStrip, collapse,
      subCRLF, pyFloat, stripU, unsignedFloat, satFin, DBL_OVERFLOW, decimalVal,
      splitExp, parseMantissa,
      parseExpPart, lowEq, lowerC, digitsToNat, pyspace, crlftab, CR, LF, TAB,
      List.dropWhile, List.takeWhile, List.rdropWhile, Char.isDigit, Char.toNat,
      UInt32.size, UInt32.toNat] <;> norm_num
  refine (c3_sign_covariance _ ?_ ?_).1 (by decide)
  · intro q hq
    rw [hval] at hq
    simp at hq
    subst hq
    norm_num
  · intro q hq
    rw [hval] at hq
    simp at hq
    subst hq
    norm_num

/-- Claim C9: every extraction result carries all four fields; a selector
miss in one field yields `none` for that field only, and each field
depends only on its own selector texts, so no field failure can disturb
the others or abort the extraction (the extractor is a total function). -/
theorem c9_field_isolation :
    (∀ m : IndexMarkup, m.lastText = none → (get_hsi_data m).current_point = none) ∧
    (∀ m : IndexMarkup, m.turnoverText = none → (get_hsi_data m).turnover = none) ∧
    (∀ m : IndexMarkup, m.changeText = none →
      (get_hsi_data m).daily_change_point = none ∧
      (get_hsi_data m).daily_change_percent = none) ∧
    (∀ m₁ m₂ : IndexMarkup, m₁.lastText = m₂.lastText →
      (get_hsi_data m₁).current_point = (get_hsi_data m₂).current_point) ∧
    (∀ m₁ m₂ : IndexMarkup, m₁.turnoverText = m₂.turnoverText →
      (get_hsi_data m₁).turnover = (get_hsi_data m₂).turnover) ∧
    (∀ m₁ m₂ : IndexMarkup, m₁.arrowText = m₂.arrowText →
      m₁.changeText = m₂.changeText →
      (get_hsi_data m₁).daily_change_point = (get_hsi_data m₂).daily_change_point ∧
      (get_hsi_data m₁).daily_change_percent = (get_hsi_data m₂).daily_change_percent) := by
  refine ⟨?_, ?_, ?_, ?_, ?_, ?_⟩
  · intro m h
    simp [get_hsi_data, extract_current_point, h]
  · intro m h
    simp [get_hsi_data, extract_turnover, h]
  · intro m h
    simp [get_hsi_data, extract_change_data, index_change_raw, h]
  · intro m₁ m₂ h
    simp [get_hsi_data, extract_current_point, h]
  · intro m₁ m₂ h
    simp [get_hsi_data, extract_turnover, h]
  · intro m₁ m₂ ha hc
    simp [get_hsi_data, extract_change_data, index_change_raw,
      index_change_is_negative, ha, hc]

/-- Witness for C9 at the all-missing markup: every field is absent and
the extraction still returns a full record. -/
theorem c9_witness :
    (get_hsi_data ⟨none, none, none, none⟩).current_point = none ∧
    (get_hsi_data ⟨none, none, none, none⟩).turnover = none ∧
    (get_hsi_data ⟨none, none, none, none⟩).daily_change_point = none :=
  ⟨c9_field_isolation.1 ⟨none, none, none, none⟩ rfl,
   c9_field_isolation.2.1 ⟨none, none, none, none⟩ rfl,
   (c9_field_isolation.2.2.1 ⟨none, none, none, none⟩ rfl).1⟩

/-! ### `_format_symbol` (scraper_quote.py) -/

/-- Whether `pat` is a suffix of `l`. -/
def endsWithL (pat l : List Char) : Bool := startsWithL pat.reverse l.reverse

/-- `re.sub(r"\.(HK|HKG)$", "", symbol, flags=re.IGNORECASE)` applied to an
already upper-cased string: strip one trailing `.HK` or `.HKG`. -/
def stripSuffixHK (l : List Char) : List Char :=
  if endsWithL ".HKG".data l then l.take (l.length - 4)
  else if endsWithL ".HK".data l then l.take (l.length - 3)
  else l

/-- `re.search(r"(\d+)", symbol)`: the first maximal run of digits. -/
def firstDigitRun (l : List Char) : List Char :=
  (l.dropWhile (fun c => !c.isDigit)).takeWhile Char.isDigit

/-- Python `str.zfill(5)`. -/
def zfill5 (l : List Char) : List Char :=
  List.replicate (5 - l.length) '0' ++ l

/-- The normalisation pipeline of `_format_symbol` before digit
extraction: `strip()`, `upper()`, drop a trailing `.HK`/`.HKG`. -/
def symbolTransform (s : String) : List Char :=
  stripSuffixHK ((pyStrip s.data).map upperC)

/-- `StockQuoteScraper._format_symbol`: empty input, missing digits and a
digit run longer than 5 raise `ValueError` (modelled by `Except.error`);
otherwise the first digit run is zero-padded to width 5. -/
def format_symbol (s : String) : Except String String :=
  if s = "" then .error "Symbol cannot be empty"
  else if (firstDigitRun (symbolTransform s)).isEmpty then
    .error "No numeric symbol found"
  else if 5 < (firstDigitRun (symbolTransform s)).length then
    .error "Symbol too long"
  else .ok (String.mk (zfill5 (firstDigitRun (symbolTransform s))))

/-- Whether an `Except` result is the error case. -/
def isErr (e : Except String String) : Bool :=
  match e with
  | .error _ => true
  | .ok _ => false

/-- Claim C6: `_format_symbol` fails exactly when the input is empty, the
(normalised) input contains no digit run, or its first digit run exceeds
5 characters; otherwise it returns that run left-padded with zeros to
width 5.  `5.HK` gives `00005`, `1299` gives `01299`, and `123456` and the
empty string fail. -/
theorem c6_format_symbol :
    (∀ s : String, isErr (format_symbol s) = true ↔
      (s = "" ∨ firstDigitRun (symbolTransform s) = [] ∨
        5 < (firstDigitRun (symbolTransform s)).length)) ∧
    (∀ (s : String) (r : String), format_symbol s = .ok r →
      r = String.mk (zfill5 (firstDigitRun (symbolTransform s)))) ∧
    format_symbol "5.HK" = .ok "00005" ∧
    format_symbol "1299" = .ok "01299" ∧
    isErr (format_symbol "123456") = true ∧
    isErr (format_symbol "") = true := by
  refine ⟨?_, ?_, by rfl, by rfl, by rfl, by rfl⟩
  · intro s
    unfold format_symbol
    by_cases h1 : s = ""
    · simp [h1, isErr]
    · rw [if_neg h1]
      by_cases h2 : (firstDigitRun (symbolTransform s)).isEmpty
      · rw [if_pos h2]
        simp only [isErr, true_iff]
        exact Or.inr (Or.inl (List.isEmpty_iff.mp h2))
      · rw [if_neg h2]
        by_cases h3 : 5 < (firstDigitRun (symbolTransform s)).length
        · rw [if_pos h3]
          simp only [isErr, true_iff]
          exact Or.inr (Or.inr h3)
        · rw [if_neg h3]
          simp only [isErr, Bool.false_eq_true, false_iff]
          rintro (h' | h' | h')
          · exact h1 h'
          · exact h2 (by simp [h'])
          · exact h3 h'
  · intro s r h
    unfold format_symbol at h
    by_cases h1 : s = ""
    · rw [if_pos h1] at h; exact absurd h (by simp)
    · rw [if_neg h1] at h
      by_cases h2 : (firstDigitRun (symbolTransform s)).isEmpty
      · rw [if_pos h2] at h; exact absurd h (by simp)
      · rw [if_neg h2] at h
        by_cases h3 : 5 < (firstDigitRun (symbolTransform s)).length
        · rw [if_pos h3] at h; exact absurd h (by simp)
        · rw [if_neg h3] at h
          simpa [Except.ok.injEq] using h.symm

/-- Witness for C6: the characterisation applied at `123456` (too long, so
an error) and the value equation applied at `5.HK`. -/
theorem c6_witness :
    isErr (format_symbol "123456") = true ∧
    ("00005" : String) = String.mk (zfill5 (firstDigitRun (symbolTransform "5.HK"))) :=
  ⟨(c6_format_symbol.1 "123456").mpr (Or.inr (Or.inr (by decide))),
   c6_format_symbol.2.1 "5.HK" "00005" (by rfl)⟩

/-! ### Quote change markup and the AJAX quote path (scraper_quote.py) -/

/-- `BeautifulSoup(html).get_text()` on a flat fragment: drop everything
between `<` and `>`.  The flag records being inside a tag. -/
def stripTagsGo : Bool → List Char → List Char
  | _, [] => []
  | true, c :: rest => if c = '>' then stripTagsGo false rest else stripTagsGo true rest
  | false, c :: rest => if c = '<' then stripTagsGo true rest else c :: stripTagsGo false rest

/-- Tag-stripped text of an HTML fragment. -/
def stripTags (l : List Char) : List Char := stripTagsGo false l

/-- The class-implied direction of `_parse_change_html`: `class='pos'`
is checked before `class='neg'`; neither present gives `unchanged`. -/
def dirOf (l : List Char) : String :=
  if containsSub "class='pos'".data l then "up"
  else if containsSub "class='neg'".data l then "down"
  else "unchanged"

/-- Matcher for `re.match(r"([+-]?)([0-9,.]+)\(([+-]?[0-9,.]+)%\)", text)`
of `_parse_change_html`: explicit sign group, unsigned value group, and a
percent group that keeps its own sign; trailing text is allowed
(`re.match` anchors only the start). -/
def matchQuoteChange (l : List Char) :
    Option (List Char × List Char × List Char) :=
  if ((takeSign l).2.takeWhile numChar).isEmpty then none
  else
    match (takeSign l).2.dropWhile numChar with
    | '(' :: r4 =>
      if ((takeSign r4).2.takeWhile numChar).isEmpty then none
      else
        match (takeSign r4).2.dropWhile numChar with
        | '%' :: ')' :: _ =>
          some ((takeSign l).1, (takeSign l).2.takeWhile numChar,
                (takeSign r4).1 ++ (takeSign r4).2.takeWhile numChar)
        | _ => none
    | _ => none

/-- The sign-resolution of `_parse_change_html`: an explicit `-` or a
down class forces `-abs`, else an explicit `+` or an up class forces
`abs`, else the parsed value is returned untouched. -/
def applySign (sgn : List Char) (dir : String) (v : PyNum) : PyNum :=
  if sgn = ['-'] ∨ dir = "down" then (PyNum.abs v).neg
  else if sgn = ['+'] ∨ dir = "up" then PyNum.abs v
  else v

/-- `StockQuoteScraper._parse_change_html` on the raw fragment characters:
class-implied direction, tag-stripped and stripped text, pattern match,
then sign resolution on both parsed values. -/
def parse_change_html_chars (l : List Char) : Option PyNum × Option PyNum × String :=
  match matchQuoteChange (pyStrip (stripTags l)) with
  | none => (none, none, "unknown")
  | some g =>
    ((parse_number_chars g.2.1).map (applySign g.1 (dirOf l)),
     (parse_number_chars g.2.2).map (applySign g.1 (dirOf l)),
     dirOf l)

/-- `StockQuoteScraper._parse_change_html`. -/
def parse_change_html (s : String) : Option PyNum × Option PyNum × String :=
  parse_change_html_chars s.data

/-- The character class `[KMBT]` of `_parse_turnover`. -/
def kmbt (c : Char) : Bool := c == 'K' || c == 'M' || c == 'B' || c == 'T'

/-- `StockQuoteScraper._parse_turnover`: match
`re.match(r"([0-9,.]+)([KMBT]?)", s.strip())`, parse the number, return
the unit letter or `None`.  The mantissa is NOT scaled by the unit. -/
def parse_turnover_chars (l : List Char) : Option PyNum × Option String :=
  if l.isEmpty then (none, none)
  else if ((pyStrip l).takeWhile numChar).isEmpty then (none, none)
  else
    ((parse_number_chars ((pyStrip l).takeWhile numChar)),
     (match (pyStrip l).dropWhile numChar with
      | c :: _ => if kmbt c then some (String.mk [c]) else none
      | [] => none))

/-- One element of the AJAX JSON array, with the fields `get_stock_quote`
reads (`.get(key, "")` makes a missing key the empty string). -/
structure StockRec where
  a : String
  b : String
  d : String
  e : String

/-- The quote record built by `get_stock_quote` (without the wall-clock
timestamp and constant source fields). -/
structure QuoteResult where
  symbol : String
  company_name : Option String
  current_price : Option PyNum
  price_change : Option PyNum
  price_change_percent : Option PyNum
  turnover : Option PyNum
  turnover_unit : Option String
  last_updated_time : String
  url : String
deriving DecidableEq, Repr

/-- The quote page URL template. -/
def quoteUrl (sym : String) : String :=
  "http://www.aastocks.com/en/stocks/quote/quick-quote.aspx?symbol=" ++ sym

/-- `StockQuoteScraper.get_stock_quote` after the HTTP fetch, on the
decoded AJAX array: format the symbol (`ValueError` aborts), reject an
empty array, then extract all fields from element zero. -/
def get_stock_quote (symbol : String) (company_name : Option String)
    (data : List StockRec) : Except String QuoteResult :=
  match format_symbol symbol with
  | .error e => .error e
  | .ok fsym =>
    match data with
    | [] => .error ("No data returned for symbol " ++ fsym)
    | s0 :: _ =>
      .ok {
        symbol := fsym
        company_name := company_name
        current_price := parse_number_chars s0.a.data
        price_change := (parse_change_html_chars s0.b.data).1
        price_change_percent := (parse_change_html_chars s0.b.data).2.1
        turnover := (parse_turnover_chars s0.d.data).1
        turnover_unit := (parse_turnover_chars s0.d.data).2
        last_updated_time := s0.e
        url := quoteUrl fsym }

theorem absNeg_fin {v : PyNum} {q : ℚ} (h : (PyNum.abs v).neg = .fin q) : q ≤ 0 := by
  cases v with
  | fin p =>
    simp only [PyNum.abs, PyNum.neg, PyNum.fin.injEq] at h
    rw [← h]
    simp [abs_nonneg]
  | inf => simp [PyNum.abs, PyNum.neg] at h
  | ninf => simp [PyNum.abs, PyNum.neg] at h
  | nan => simp [PyNum.abs, PyNum.neg] at h

theorem abs_fin {v : PyNum} {q : ℚ} (h : PyNum.abs v = .fin q) : 0 ≤ q := by
  cases v with
  | fin p =>
    simp only [PyNum.abs, PyNum.fin.injEq] at h
    rw [← h]
    exact abs_nonneg p
  | inf => simp [PyNum.abs] at h
  | ninf => simp [PyNum.abs] at h
  | nan => simp [PyNum.abs] at h

/-- Claim C1 counterexample: a fragment with class `pos` and an explicit
leading minus — `<span class='pos'>-0.400(0.426%)</span>` — yields change
`-0.4` and percent `-0.426`: the explicit sign, not the class, decides,
against the claim that such a fragment yields non-negative values. -/
theorem c1_counterexample :
    dirOf "<span class='pos'>-0.400(0.426%)</span>".data = "up" ∧
    parse_change_html "<span class='pos'>-0.400(0.426%)</span>" =
      (some (.fin (-0.4)), some (.fin (-0.426)), "up") ∧
    (-0.4 : ℚ) < 0 := by
  refine ⟨by decide, ?_, by norm_num⟩
  simp [parse_change_html, parse_change_html_chars, matchQuoteChange, dirOf,
    applySign, containsSub, startsWithL, stripTags, stripTagsGo, takeSign,
    numChar, parse_number_chars, clean_chars, pyStrip, collapse, subCRLF,
    pyFloat, stripU, unsignedFloat, satFin, DBL_OVERFLOW, decimalVal, splitExp, parseMantissa, parseExpPart,
    lowEq, lowerC, digitsToNat, pyspace, crlftab, CR, LF, TAB, PyNum.abs,
    PyNum.neg, List.dropWhile, List.takeWhile, List.rdropWhile, Char.isDigit,
    Char.toNat, UInt32.size, UInt32.toNat]
  norm_num

/-- Claim C1 (amended): in `_parse_change_html` a negative signal from
either source wins: if the matched text has a leading `-` or the class is
`neg` (down), both returned values are ≤ 0; otherwise, if the text has a
leading `+` or the class is `pos` (up), both are ≥ 0.  In particular, when
no class is present the explicit sign token decides, but with class `pos`
and a leading `-` the result is negative, not non-negative. -/
theorem c1_sign_resolution (s : String) (g : List Char × List Char × List Char)
    (hm : matchQuoteChange (pyStrip (stripTags s.data)) = some g) :
    ((g.1 = ['-'] ∨ dirOf s.data = "down") →
      leZeroOpt (parse_change_html s).1 ∧ leZeroOpt (parse_change_html s).2.1) ∧
    (g.1 ≠ ['-'] → dirOf s.data ≠ "down" → (g.1 = ['+'] ∨ dirOf s.data = "up") →
      geZeroOpt (parse_change_html s).1 ∧ geZeroOpt (parse_change_html s).2.1) := by
  have hres : parse_change_html s =
      ((parse_number_chars g.2.1).map (applySign g.1 (dirOf s.data)),
       (parse_number_chars g.2.2).map (applySign g.1 (dirOf s.data)),
       dirOf s.data) := by
    unfold parse_change_html parse_change_html_chars
    rw [hm]
  constructor
  · intro hneg
    rw [hres]
    constructor
    · intro q hq
      obtain ⟨v, _, hvq⟩ := Option.map_eq_some'.mp hq
      rw [applySign, if_pos hneg] at hvq
      exact absNeg_fin hvq
    · intro q hq
      obtain ⟨v, _, hvq⟩ := Option.map_eq_some'.mp hq
      rw [applySign, if_pos hneg] at hvq
      exact absNeg_fin hvq
  · intro hs hd hpos
    have hnot : ¬(g.1 = ['-'] ∨ dirOf s.data = "down") := by
      rintro (h' | h')
      · exact hs h'
      · exact hd h'
    rw [hres]
    constructor
    · intro q hq
      obtain ⟨v, _, hvq⟩ := Option.map_eq_some'.mp hq
      rw [applySign, if_neg hnot, if_pos hpos] at hvq
      exact abs_fin hvq
    · intro q hq
      obtain ⟨v, _, hvq⟩ := Option.map_eq_some'.mp hq
      rw [applySign, if_neg hnot, if_pos hpos] at hvq
      exact abs_fin hvq

/-- Witness for the amended C1 theorem: class `neg` with an explicit `+`
sign still yields non-positive values (the negative signal wins). -/
theorem c1_witness :
    leZeroOpt (parse_change_html "<span class='neg'>+1.0(2.0%)</span>").1 ∧
    leZeroOpt (parse_change_html "<span class='neg'>+1.0(2.0%)</span>").2.1 :=
  (c1_sign_resolution "<span class='neg'>+1.0(2.0%)</span>"
    (['+'], "1.0".data, "2.0".data) (by decide)).1 (Or.inr (by decide))

/-- Claim C2 counterexample: on the single-element AJAX array of the
claim, the returned turnover is the unscaled mantissa `1.23` (the unit
`B` is returned separately and never multiplied in), not `1.23e9`. -/
theorem c2_counterexample :
    (get_stock_quote "00005" none
        [⟨"52.75", "<span class='neg'>-0.45(0.85%)</span>", "1.23B", "15:30"⟩]).map
      (fun q => q.turnover) = .ok (some (.fin 1.23)) ∧
    (1.23 : ℚ) ≠ 1230000000 := by
  constructor
  · simp [get_stock_quote, format_symbol, symbolTransform, stripSuffixHK,
      endsWithL, startsWithL, firstDigitRun, zfill5, upperC, parse_turnover_chars,
      kmbt, numChar, parse_number_chars, clean_chars, pyStrip, collapse, subCRLF,
      pyFloat, stripU, unsignedFloat, satFin, DBL_OVERFLOW, decimalVal, splitExp, parseMantissa, parseExpPart,
      lowEq, lowerC, digitsToNat, pyspace, crlftab, CR, LF, TAB, Except.map,
      List.dropWhile, List.takeWhile, List.rdropWhile, Char.isDigit, Char.toNat,
      UInt32.size, UInt32.toNat]
    norm_num
  · norm_num

set_option maxHeartbeats 2000000 in
/-- Claim C2 (amended): feeding the quote extraction the single-element
array `{a:"52.75", b:"<span class='neg'>-0.45(0.85%)</span>", d:"1.23B",
e:"15:30"}` yields current_price 52.75, price_change -0.45,
price_change_percent -0.85, turnover 1.23 (the mantissa, unscaled) and
turnover_unit "B"; the update string is passed through unmodified. -/
theorem c2_quote_roundtrip :
    get_stock_quote "00005" none
        [⟨"52.75", "<span class='neg'>-0.45(0.85%)</span>", "1.23B", "15:30"⟩] =
      .ok {
        symbol := "00005"
        company_name := none
        current_price := some (.fin 52.75)
        price_change := some (.fin (-0.45))
        price_change_percent := some (.fin (-0.85))
        turnover := some (.fin 1.23)
        turnover_unit := some "B"
        last_updated_time := "15:30"
        url := quoteUrl "00005" } := by
  simp [get_stock_quote, format_symbol, symbolTransform, stripSuffixHK,
    endsWithL, startsWithL, firstDigitRun, zfill5, upperC, parse_turnover_chars,
    kmbt, parse_change_html_chars, matchQuoteChange, dirOf, applySign,
    containsSub, stripTags, stripTagsGo, takeSign, numChar, parse_number_chars,
    clean_chars, pyStrip, collapse, subCRLF, pyFloat, stripU, unsignedFloat, satFin, DBL_OVERFLOW, decimalVal,
    splitExp, parseMantissa, parseExpPart, lowEq, lowerC, digitsToNat, pyspace,
    crlftab, CR, LF, TAB, PyNum.abs, PyNum.neg, List.dropWhile, List.takeWhile,
    List.rdropWhile, Char.isDigit, Char.toNat, UInt32.size, UInt32.toNat]
  norm_num

/-! ### News extraction (scraper_index.py and the legacy scraper.py)

The news page is abstracted by the link sets the three strategies query:
the anchors whose href matches `news|article`, the anchors inside
news/headline/article containers, and all anchors. -/

/-- An anchor element: its text and its `href` (empty when missing). -/
structure Link where
  text : String
  href : String

/-- A result headline. -/
structure Headline where
  headline : String
  url : String
deriving DecidableEq, Repr

/-- The abstracted news page. -/
structure NewsDoc where
  articleLinks : List Link
  containers : List (List Link)
  allLinks : List Link

/-- The site base URL. -/
def BASE_URL : String := "https://www.aastocks.com"

/-- Abstraction of `urllib.parse.urljoin(BASE_URL, href)`: an absolute
href is kept, a relative one is resolved against the base. -/
def urljoin (base rel : String) : String :=
  if startsWithL "http".data rel.data then rel else base ++ rel

/-- `_process_headline_link`: clean the anchor text, reject empty text,
resolve the URL (empty href gives an empty URL). -/
def process_headline_link (l : Link) : Option Headline :=
  if (clean_chars l.text.data).isEmpty then none
  else some ⟨String.mk (clean_chars l.text.data),
             if l.href = "" then "" else urljoin BASE_URL l.href⟩

/-- `MARKET_KEYWORDS` of both scrapers. -/
def MARKET_KEYWORDS : List String :=
  ["stock", "market", "hong kong", "hk", "china", "economic", "trade",
   "financial", "investment", "company"]

/-- `_is_valid_headline`: length within `[20, 200]` and at least one
market keyword in the lower-cased text. -/
def validHeadline (t : String) : Bool :=
  decide (20 ≤ t.data.length) && decide (t.data.length ≤ 200) &&
  MARKET_KEYWORDS.any (fun k => containsSub k.data (t.data.map lowerC))

/-- `_is_duplicate_headline`: exact text match against the accumulated list. -/
def isDupIn (t : String) (hs : List Headline) : Bool :=
  hs.any (fun h => h.headline == t)

/-- The loop of `_extract_article_links` (and of Method 1 of the legacy
`get_news_headlines`): keep cleaned texts longer than 20, stop at the
limit; no duplicate check in this strategy. -/
def goArticle : List Link → List Headline → Nat → List Headline
  | [], acc, _ => acc
  | l :: rest, acc, limit =>
    match process_headline_link l with
    | some h =>
      if 20 < h.headline.data.length then
        if limit ≤ (acc ++ [h]).length then acc ++ [h]
        else goArticle rest (acc ++ [h]) limit
      else goArticle rest acc limit
    | none => goArticle rest acc limit

/-- `_extract_article_links`: only the first `limit * 2` candidate anchors
are considered. -/
def extract_article_links (links : List Link) (limit : Nat) : List Headline :=
  goArticle (links.take (limit * 2)) [] limit

/-- The inner loop of `_extract_container_headlines`: length filter plus a
duplicate check against this strategy's own accumulator. -/
def goInner : List Link → List Headline → Nat → List Headline
  | [], acc, _ => acc
  | l :: rest, acc, limit =>
    match process_headline_link l with
    | some h =>
      if 20 < h.headline.data.length && !isDupIn h.headline acc then
        if limit ≤ (acc ++ [h]).length then acc ++ [h]
        else goInner rest (acc ++ [h]) limit
      else goInner rest acc limit
    | none => goInner rest acc limit

/-- The outer loop of `_extract_container_headlines`. -/
def goContainers : List (List Link) → List Headline → Nat → List Headline
  | [], acc, _ => acc
  | c :: cs, acc, limit =>
    if limit ≤ acc.length then acc
    else goContainers cs (goInner c acc limit) limit

/-- `_extract_container_headlines`. -/
def extract_container_headlines (cs : List (List Link)) (limit : Nat) :
    List Headline :=
  goContainers cs [] limit

/-- The loop of `_extract_filtered_headlines`: keyword-filtered fallback
with its own duplicate check; the limit is tested at the top of the loop. -/
def goFiltered : List Link → List Headline → Nat → List Headline
  | [], acc, _ => acc
  | l :: rest, acc, limit =>
    if limit ≤ acc.length then acc
    else
      match process_headline_link l with
      | some h =>
        if validHeadline h.headline && !isDupIn h.headline acc then
          goFiltered rest (acc ++ [h]) limit
        else goFiltered rest acc limit
      | none => goFiltered rest acc limit

/-- `_extract_filtered_headlines`. -/
def extract_filtered_headlines (links : List Link) (limit : Nat) :
    List Headline :=
  goFiltered links [] limit

/-- `_deduplicate_headlines`: keep the first occurrence of each text. -/
def dedupGo (seen : List String) : List Headline → List Headline
  | [] => []
  | h :: rest =>
    if seen.contains h.headline then dedupGo seen rest
    else h :: dedupGo (h.headline :: seen) rest

/-- `_deduplicate_headlines` with an empty seen-set. -/
def deduplicate_headlines (hs : List Headline) : List Headline := dedupGo [] hs

/-- The concatenation of the three strategies' yields before
deduplication, with each later strategy run only while short of the limit
and asked only for the remainder. -/
def news_candidates (doc : NewsDoc) (limit : Nat) : List Headline :=
  let h1 := extract_article_links doc.articleLinks limit
  let h2 := if h1.length < limit then
      extract_container_headlines doc.containers (limit - h1.length)
    else []
  let h3 := if (h1 ++ h2).length < limit then
      extract_filtered_headlines doc.allLinks (limit - (h1 ++ h2).length)
    else []
  h1 ++ h2 ++ h3

/-- `HSIDataScraper.get_news_headlines` (scraper_index.py): run the
strategies, deduplicate, truncate to the limit. -/
def get_news_headlines (doc : NewsDoc) (limit : Nat) : List Headline :=
  (deduplicate_headlines (news_candidates doc limit)).take limit

/-- Method 2 of the legacy `get_news_headlines` (scraper.py): container
anchors appended to the shared list with a duplicate check against it. -/
def legacyGoContainers : List (List Link) → List Headline → Nat → List Headline
  | [], acc, _ => acc
  | c :: cs, acc, limit =>
    if limit ≤ (goInner c acc limit).length then goInner c acc limit
    else legacyGoContainers cs (goInner c acc limit) limit

/-- Method 3 of the legacy `get_news_headlines` (scraper.py). -/
def legacyGoFiltered : List Link → List Headline → Nat → List Headline
  | [], acc, _ => acc
  | l :: rest, acc, limit =>
    match process_headline_link l with
    | some h =>
      if validHeadline h.headline && !isDupIn h.headline acc then
        if limit ≤ (acc ++ [h]).length then acc ++ [h]
        else legacyGoFiltered rest (acc ++ [h]) limit
      else legacyGoFiltered rest acc limit
    | none => legacyGoFiltered rest acc limit

/-- `HSIDataScraper.get_news_headlines` of the legacy scraper.py (the
variant main.py imports): one shared list, Method 1 without any duplicate
check, and no final deduplication — only truncation. -/
def legacy_get_news_headlines (doc : NewsDoc) (limit : Nat) : List Headline :=
  let h1 := goArticle (doc.articleLinks.take (limit * 2)) [] limit
  let h2 := if h1.length < limit then legacyGoContainers doc.containers h1 limit
    else h1
  let h3 := if h2.length < limit then legacyGoFiltered doc.allLinks h2 limit
    else h2
  h3.take limit

theorem dedupGo_not_seen {h : Headline} :
    ∀ {l : List Headline} {seen : List String}, h ∈ dedupGo seen l →
      seen.contains h.headline = false := by
  intro l
  induction l with
  | nil => simp [dedupGo]
  | cons x rest ih =>
    intro seen hmem
    simp only [dedupGo] at hmem
    by_cases hx : seen.contains x.headline
    · rw [if_pos hx] at hmem
      exact ih hmem
    · rw [if_neg hx] at hmem
      rcases List.mem_cons.mp hmem with h' | h'
      · subst h'
        simpa using hx
      · have := ih h'
        simp only [List.contains_cons, Bool.or_eq_false_iff] at this
        exact this.2

theorem dedupGo_nodup :
    ∀ (l : List Headline) (seen : List String),
      ((dedupGo seen l).map (fun h => h.headline)).Nodup := by
  intro l
  induction l with
  | nil => simp [dedupGo]
  | cons x rest ih =>
    intro seen
    simp only [dedupGo]
    by_cases hx : seen.contains x.headline
    · rw [if_pos hx]
      exact ih seen
    · rw [if_neg hx]
      simp only [List.map_cons, List.nodup_cons]
      refine ⟨?_, ih _⟩
      intro hmem
      obtain ⟨y, hy, hyx⟩ := List.mem_map.mp hmem
      have := dedupGo_not_seen hy
      simp only [List.contains_cons, Bool.or_eq_false_iff] at this
      have h1 : ¬y.headline = x.headline := by simpa using this.1
      exact h1 (by simpa using hyx)

theorem dedupGo_sublist :
    ∀ (l : List Headline) (seen : List String), List.Sublist (dedupGo seen l) l := by
  intro l
  induction l with
  | nil => simp [dedupGo]
  | cons x rest ih =>
    intro seen
    simp only [dedupGo]
    by_cases hx : seen.contains x.headline
    · rw [if_pos hx]
      exact (ih seen).cons x
    · rw [if_neg hx]
      exact (ih _).cons₂ x

theorem dedupGo_find :
    ∀ (l : List Headline) (seen : List String) (h : Headline),
      h ∈ dedupGo seen l →
      l.find? (fun x => x.headline == h.headline) = some h := by
  intro l
  induction l with
  | nil => simp [dedupGo]
  | cons x rest ih =>
    intro seen h hmem
    simp only [dedupGo] at hmem
    by_cases hx : seen.contains x.headline
    · rw [if_pos hx] at hmem
      have hne : x.headline ≠ h.headline := by
        intro he
        have := dedupGo_not_seen hmem
        rw [← he] at this
        rw [this] at hx
        exact absurd hx (by simp)
      rw [List.find?_cons_of_neg _ (by simpa using hne)]
      exact ih seen h hmem
    · rw [if_neg hx] at hmem
      rcases List.mem_cons.mp hmem with h' | h'
      · subst h'
        rw [List.find?_cons_of_pos _ (by simp)]
      · have hns := dedupGo_not_seen h'
        simp only [List.contains_cons, Bool.or_eq_false_iff] at hns
        have hne : x.headline ≠ h.headline := by
          intro he
          exact absurd (by simpa using he.symm) (by simpa using hns.1)
        rw [List.find?_cons_of_neg _ (by simpa using hne)]
        exact ih _ h h'

/-- Claim C7 counterexample (legacy scraper.py, the implementation main.py
imports): two identical article links and limit 2 give a result with the
same headline text twice — the direct-link strategy has no duplicate
check and there is no final deduplication. -/
theorem c7_counterexample :
    ((legacy_get_news_headlines
        ⟨[⟨"Hong Kong stocks rally on strong data", "/news/1"⟩,
          ⟨"Hong Kong stocks rally on strong data", "/news/1"⟩], [], []⟩ 2).map
      (fun h => h.headline)) =
      ["Hong Kong stocks rally on strong data",
       "Hong Kong stocks rally on strong data"] ∧
    ¬ ((legacy_get_news_headlines
        ⟨[⟨"Hong Kong stocks rally on strong data", "/news/1"⟩,
          ⟨"Hong Kong stocks rally on strong data", "/news/1"⟩], [], []⟩ 2).map
      (fun h => h.headline)).Nodup := by
  constructor
  · decide
  · decide

/-- Claim C7 (amended, for the scraper_index.py implementation): for every
document and limit the returned list has pairwise distinct headline
texts, has length at most the limit, is a subsequence of the strategies'
combined output (order of first occurrence preserved), and every returned
headline is the first occurrence of its text in that output.  The legacy
scraper.py variant does not deduplicate its direct-link strategy and can
return duplicates. -/
theorem c7_news_dedup_and_limit (doc : NewsDoc) (limit : Nat) :
    ((get_news_headlines doc limit).map (fun h => h.headline)).Nodup ∧
    (get_news_headlines doc limit).length ≤ limit ∧
    List.Sublist (get_news_headlines doc limit) (news_candidates doc limit) ∧
    (∀ h ∈ get_news_headlines doc limit,
      (news_candidates doc limit).find? (fun x => x.headline == h.headline) =
        some h) := by
  refine ⟨?_, ?_, ?_, ?_⟩
  · have h1 := dedupGo_nodup (news_candidates doc limit) []
    have h2 : List.Sublist
        ((get_news_headlines doc limit).map (fun h => h.headline))
        ((deduplicate_headlines (news_candidates doc limit)).map (fun h => h.headline)) :=
      List.Sublist.map _ (List.take_sublist _ _)
    exact List.Nodup.sublist h2 h1
  · exact List.length_take_le _ _
  · exact (List.take_sublist _ _).trans
      (dedupGo_sublist (news_candidates doc limit) [])
  · intro h hmem
    have : h ∈ deduplicate_headlines (news_candidates doc limit) :=
      (List.take_sublist _ _).mem hmem
    exact dedupGo_find (news_candidates doc limit) [] h this

/-- Witness for the amended C7 theorem at a concrete document: the
first-occurrence property applied to the single returned headline. -/
theorem c7_witness :
    (news_candidates ⟨[⟨"Hong Kong market gains on tech strength", ""⟩], [], []⟩ 3).find?
        (fun x => x.headline == "Hong Kong market gains on tech strength") =
      some ⟨"Hong Kong market gains on tech strength", ""⟩ :=
  (c7_news_dedup_and_limit
    ⟨[⟨"Hong Kong market gains on tech strength", ""⟩], [], []⟩ 3).2.2.2
    ⟨"Hong Kong market gains on tech strength", ""⟩ (by decide)

/-! ### AI-response interpretation (gemini_client.py) -/

/-- The word-character class `\w` (ASCII). -/
def wordChar (c : Char) : Bool := c.isAlphanum || c == '_'

/-- Whether a `\b` boundary holds before a word character, given the
previous character (`none` at the start of the text). -/
def boundaryB (prev : Option Char) : Bool :=
  match prev with
  | none => true
  | some p => !wordChar p

/-- `re.search(r"\b(\d{5})\b", text)`: scan for a five-digit run with
word boundaries on both sides. -/
def find5Go : Option Char → List Char → Option (List Char)
  | _, [] => none
  | prev, c :: rest =>
    if boundaryB prev &&
       ((c :: rest).takeWhile Char.isDigit).length == 5 &&
       (match (c :: rest).drop 5 with | [] => true | d :: _ => !wordChar d) then
      some ((c :: rest).takeWhile Char.isDigit)
    else find5Go (some c) rest

/-- `\b(\d{5})\b` from the start of the text. -/
def find5 (l : List Char) : Option (List Char) := find5Go none l

/-- `re.search(r"\b(\d{1,4})\b", text)`. -/
def find14Go : Option Char → List Char → Option (List Char)
  | _, [] => none
  | prev, c :: rest =>
    if boundaryB prev &&
       decide (1 ≤ ((c :: rest).takeWhile Char.isDigit).length) &&
       decide (((c :: rest).takeWhile Char.isDigit).length ≤ 4) &&
       (match (c :: rest).drop ((c :: rest).takeWhile Char.isDigit).length with
        | [] => true | d :: _ => !wordChar d) then
      some ((c :: rest).takeWhile Char.isDigit)
    else find14Go (some c) rest

/-- `\b(\d{1,4})\b` from the start of the text. -/
def find14 (l : List Char) : Option (List Char) := find14Go none l

/-- `re.search(r"\b(\d{1,5})\.HK\b", text, re.IGNORECASE)`. -/
def findHKGo : Option Char → List Char → Option (List Char)
  | _, [] => none
  | prev, c :: rest =>
    if boundaryB prev &&
       decide (1 ≤ ((c :: rest).takeWhile Char.isDigit).length) &&
       decide (((c :: rest).takeWhile Char.isDigit).length ≤ 5) &&
       (match (c :: rest).drop ((c :: rest).takeWhile Char.isDigit).length with
        | '.' :: a :: b :: tail =>
          upperC a == 'H' && upperC b == 'K' &&
          (match tail with | [] => true | d :: _ => !wordChar d)
        | _ => false) then
      some ((c :: rest).takeWhile Char.isDigit)
    else findHKGo (some c) rest

/-- `\b(\d{1,5})\.HK\b` from the start of the text. -/
def findHK (l : List Char) : Option (List Char) := findHKGo none l

/-- Case-insensitive prefix test (`re.IGNORECASE` literal parts). -/
def startsWithCI : List Char → List Char → Bool
  | [], _ => true
  | _ :: _, [] => false
  | p :: ps, c :: cs => (upperC p == upperC c) && startsWithCI ps cs

/-- The case-insensitive `NOT_FOUND` test: the code upper-cases the whole
response and looks for the literal substring. -/
def containsNotFound (s : String) : Bool :=
  containsSub "NOT_FOUND".data (s.data.map upperC)

/-- One attempt of `re.search(r"Symbol:\s*(\d{1,5}),\s*Company:\s*(.+)",
text, re.IGNORECASE)` anchored at the current position; the groups are
the digits and the company text up to the end of the line. -/
def matchSymCoAt (l : List Char) : Option (List Char × List Char) :=
  if startsWithCI "Symbol:".data l then
    if (((l.drop 7).dropWhile pyspace).takeWhile Char.isDigit).isEmpty then none
    else if 5 < (((l.drop 7).dropWhile pyspace).takeWhile Char.isDigit).length then none
    else
      match ((l.drop 7).dropWhile pyspace).dropWhile Char.isDigit with
      | ',' :: r2 =>
        if startsWithCI "Company:".data (r2.dropWhile pyspace) then
          if ((((r2.dropWhile pyspace).drop 8).dropWhile pyspace).takeWhile
              (fun c => !(c == LF))).isEmpty then none
          else
            some (((l.drop 7).dropWhile pyspace).takeWhile Char.isDigit,
                  (((r2.dropWhile pyspace).drop 8).dropWhile pyspace).takeWhile
                    (fun c => !(c == LF)))
        else none
      | _ => none
  else none

/-- The `re.search` scan for the structured pattern: leftmost match wins. -/
def searchSymCo : List Char → Option (List Char × List Char)
  | [] => none
  | c :: rest =>
    match matchSymCoAt (c :: rest) with
    | some g => some g
    | none => searchSymCo rest

/-- `GeminiClient._extract_symbol_from_response`: empty and `NOT_FOUND`
yield `None`; otherwise a bare 5-digit run, then a 1-4 digit run
(zero-padded), then `<digits>.HK`, in that order. -/
def extract_symbol_from_response (s : String) : Option String :=
  if s = "" then none
  else if containsNotFound s then none
  else
    match find5 s.data with
    | some r => some (String.mk r)
    | none =>
      match find14 s.data with
      | some r => some (String.mk (zfill5 r))
      | none =>
        match findHK s.data with
        | some r => some (String.mk (zfill5 r))
        | none => none

/-- The structured phase of
`_extract_symbol_and_company_from_response`: pattern match, zero-pad the
symbol, require the stripped company text longer than 2 characters. -/
def structuredResult (s : String) : Option (String × String) :=
  match searchSymCo s.data with
  | some g =>
    if 2 < (pyStrip g.2).length then
      some (String.mk (zfill5 g.1), String.mk (pyStrip g.2))
    else none
  | none => none

/-- The symbol-only fallback, synthesising `Company <symbol>`. -/
def interpretFallback (s : String) : Option (String × String) :=
  (extract_symbol_from_response s).map (fun sym => (sym, "Company " ++ sym))

/-- `GeminiClient._extract_symbol_and_company_from_response`: empty and
`NOT_FOUND` yield `None`; the structured pattern wins when it matches with
a valid company; otherwise the symbol-only fallback. -/
def extract_symbol_and_company_from_response (s : String) :
    Option (String × String) :=
  if s = "" then none
  else if containsNotFound s then none
  else
    match structuredResult s with
    | some r => some r
    | none => interpretFallback s

/-- Claim C8: the interpreter returns absent for any text containing
`NOT_FOUND` (case-insensitively); otherwise it returns absent exactly when
no strategy recovers a symbol — the structured `Symbol:, Company:` pattern
(with its company validation), the bare 5-digit run, the 1-4 digit run,
and the `<digits>.HK` pattern, in that priority order; and the three
listed examples behave as stated. -/
theorem c8_interpret :
    (∀ s : String, containsNotFound s = true →
      extract_symbol_and_company_from_response s = none) ∧
    (∀ s : String, containsNotFound s = false →
      (extract_symbol_and_company_from_response s = none ↔
        (structuredResult s = none ∧ find5 s.data = none ∧
         find14 s.data = none ∧ findHK s.data = none))) ∧
    extract_symbol_and_company_from_response "NOT_FOUND" = none ∧
    extract_symbol_and_company_from_response
        "Symbol: 00005, Company: HSBC Holdings Limited" =
      some ("00005", "HSBC Holdings Limited") ∧
    extract_symbol_and_company_from_response "random text 700" =
      some ("00700", "Company 00700") := by
  refine ⟨?_, ?_, by decide, by decide, by decide⟩
  · intro s h
    unfold extract_symbol_and_company_from_response
    by_cases he : s = ""
    · rw [if_pos he]
    · rw [if_neg he, if_pos h]
  · intro s hnf
    by_cases he : s = ""
    · subst he
      constructor
      · intro _
        refine ⟨by decide, by decide, by decide, by decide⟩
      · intro _
        decide
    · unfold extract_symbol_and_company_from_response
      rw [if_neg he, if_neg (by simp [hnf])]
      cases hsr : structuredResult s with
      | some r =>
        simp only [hsr]
        constructor
        · intro h'
          exact absurd h' (by simp)
        · rintro ⟨h1, _⟩
          exact absurd h1 (by simp)
      | none =>
        simp only
        unfold interpretFallback extract_symbol_from_response
        rw [if_neg he, if_neg (by simp [hnf])]
        cases h5 : find5 s.data with
        | some r =>
          simp only [Option.map_some']
          constructor
          · intro h'
            exact absurd h' (by simp)
          · rintro ⟨_, h2, _⟩
            exact absurd h2 (by simp)
        | none =>
          cases h14 : find14 s.data with
          | some r =>
            simp only [Option.map_some']
            constructor
            · intro h'
              exact absurd h' (by simp)
            · rintro ⟨_, _, h3, _⟩
              exact absurd h3 (by simp)
          | none =>
            cases hhk : findHK s.data with
            | some r =>
              simp only [Option.map_some']
              constructor
              · intro h'
                exact absurd h' (by simp)
              · rintro ⟨_, _, _, h4⟩
                exact absurd h4 (by simp)
            | none =>
              simp

/-- Witness for C8: the `NOT_FOUND` clause at a concrete response and the
absence characterisation at a digit-free response. -/
theorem c8_witness :
    extract_symbol_and_company_from_response "lookup failed: NOT_FOUND" = none ∧
    extract_symbol_and_company_from_response "no code present" = none :=
  ⟨c8_interpret.1 "lookup failed: NOT_FOUND" (by decide),
   (c8_interpret.2.1 "no code present" (by decide)).mpr
     ⟨by decide, by decide, by decide, by decide⟩⟩

end HSI
